import Mathlib

/-!
Verification of the NNSmith symbolic graph generator.

This file shallowly embeds the parts of `nnsmith/abstract/op.py` and
`nnsmith/graph_gen.py` that the checked claims are about:
the symbolic arithmetic layer (`nnsmith_add`, `nnsmith_mul`, ...,
`align_bvs`), the tensor-shape model (`ShapeVar`), the constraint
generators of NCHWConv2d, Reshape and Pad, the broadcasting helpers,
`Expand._shape_fn` / `Transpose._shape_fn`, the forward-insertion step
of `PureSymbolGen`, and the placeholder finalization of
`SimpleGenerator.abstract_gen`.

Python `Union[int, z3.ExprRef]` values are embedded as `SVal` (a concrete
integer or a symbolic term); z3 boolean expressions as `BExpr`; the two
exception kinds (`ConstraintError`, attempt-local, and `SanityCheck`
failures, fatal) plus other uncaught Python exceptions as `Err`.
Python floor division `//` and `%` are `Int.fdiv` / `Int.fmod`.
`z3.simplify` is semantics-preserving and is modelled as the identity on
ASTs (no claim below inspects the syntax of a simplified expression).
-/

namespace NNSmith

/-- Error kinds crossing component boundaries:
`constraint` is the attempt-local `ConstraintError`, `sanity` is a fatal
`SanityCheck` failure (also used for bare Python `assert`), `other` is
any other uncaught Python exception (IndexError, Z3Exception, ...). -/
inductive Err where
  | constraint
  | sanity
  | other
deriving DecidableEq, Repr

/-- Symbolic integer terms (the z3 arithmetic AST fragment the generator
builds): integer literals, named symbols, and the arithmetic operators
used by the operator algebra. -/
inductive Expr where
  | intC : Int → Expr
  | var : String → Expr
  | addE : Expr → Expr → Expr
  | subE : Expr → Expr → Expr
  | mulE : Expr → Expr → Expr
  | divE : Expr → Expr → Expr
  | modE : Expr → Expr → Expr
  /-- `z3.If(a == b, t, e)` as built by `z3_bcast`. -/
  | iteEq : Expr → Expr → Expr → Expr → Expr
deriving DecidableEq, Repr

/-- A Python `Union[int, z3.ExprRef]` value: either a concrete integer or
a symbolic term. -/
inductive SVal where
  | c : Int → SVal
  | e : Expr → SVal
deriving DecidableEq, Repr

/-- Lifting a value into the z3 AST (z3 coerces Python ints to literals). -/
def SVal.toExpr : SVal → Expr
  | .c n => .intC n
  | .e x => x

def SVal.isSym : SVal → Bool
  | .c _ => false
  | .e _ => true

/-- z3 boolean expressions built by the constraint generators. -/
inductive BExpr where
  | eqB : Expr → Expr → BExpr
  | neB : Expr → Expr → BExpr
  | geB : Expr → Expr → BExpr
  | gtB : Expr → Expr → BExpr
  | leB : Expr → Expr → BExpr
  | ltB : Expr → Expr → BExpr
  | orB : BExpr → BExpr → BExpr
  | andB : BExpr → BExpr → BExpr
  /-- `z3.BoolVal b` (also a Python `bool` absorbed into a z3 context). -/
  | boolB : Bool → BExpr
deriving DecidableEq, Repr

/-- A constraint as produced by the builders: a concrete Python `bool`
when both operands were concrete, a symbolic boolean expression else. -/
inductive SBool where
  | cb : Bool → SBool
  | sb : BExpr → SBool
deriving DecidableEq, Repr

/-! ### The arithmetic builders, integer mode (`nnsmith_*` in op.py).

With integer-theory operands `align_bvs` is the identity (both operands
are arithmetic), so the builders reduce to: evaluate immediately when
both operands are concrete, build the symbolic node otherwise. -/

def nnsmith_mul : SVal → SVal → SVal
  | .c a, .c b => .c (a * b)
  | a, b => .e (.mulE a.toExpr b.toExpr)

def nnsmith_add : SVal → SVal → SVal
  | .c a, .c b => .c (a + b)
  | a, b => .e (.addE a.toExpr b.toExpr)

def nnsmith_sub : SVal → SVal → SVal
  | .c a, .c b => .c (a - b)
  | a, b => .e (.subE a.toExpr b.toExpr)

/-- `nnsmith_div`: Python `//` (floor division) on two ints. -/
def nnsmith_div : SVal → SVal → SVal
  | .c a, .c b => .c (Int.fdiv a b)
  | a, b => .e (.divE a.toExpr b.toExpr)

/-- `nnsmith_mod`: Python `%` (sign of the divisor) on two ints. -/
def nnsmith_mod : SVal → SVal → SVal
  | .c a, .c b => .c (Int.fmod a b)
  | a, b => .e (.modE a.toExpr b.toExpr)

def nnsmith_eq : SVal → SVal → SBool
  | .c a, .c b => .cb (a = b)
  | a, b => .sb (.eqB a.toExpr b.toExpr)

def nnsmith_ge : SVal → SVal → SBool
  | .c a, .c b => .cb (b ≤ a)
  | a, b => .sb (.geB a.toExpr b.toExpr)

def nnsmith_gt : SVal → SVal → SBool
  | .c a, .c b => .cb (b < a)
  | a, b => .sb (.gtB a.toExpr b.toExpr)

def nnsmith_le : SVal → SVal → SBool
  | .c a, .c b => .cb (a ≤ b)
  | a, b => .sb (.leB a.toExpr b.toExpr)

def nnsmith_lt : SVal → SVal → SBool
  | .c a, .c b => .cb (a < b)
  | a, b => .sb (.ltB a.toExpr b.toExpr)

/-! ### Evaluation of symbolic terms under a model (z3 semantics). -/

def Expr.evalE (σ : String → Int) : Expr → Int
  | .intC n => n
  | .var s => σ s
  | .addE a b => a.evalE σ + b.evalE σ
  | .subE a b => a.evalE σ - b.evalE σ
  | .mulE a b => a.evalE σ * b.evalE σ
  | .divE a b => Int.fdiv (a.evalE σ) (b.evalE σ)
  | .modE a b => Int.fmod (a.evalE σ) (b.evalE σ)
  | .iteEq a b t f => if a.evalE σ = b.evalE σ then t.evalE σ else f.evalE σ

def BExpr.evalB (σ : String → Int) : BExpr → Bool
  | .eqB a b => a.evalE σ = b.evalE σ
  | .neB a b => a.evalE σ ≠ b.evalE σ
  | .geB a b => b.evalE σ ≤ a.evalE σ
  | .gtB a b => b.evalE σ < a.evalE σ
  | .leB a b => a.evalE σ ≤ b.evalE σ
  | .ltB a b => a.evalE σ < b.evalE σ
  | .orB a b => a.evalB σ || b.evalB σ
  | .andB a b => a.evalB σ && b.evalB σ
  | .boolB b => b

def SBool.evalSB (σ : String → Int) : SBool → Bool
  | .cb b => b
  | .sb x => x.evalB σ

def SVal.evalS (σ : String → Int) (v : SVal) : Int :=
  v.toExpr.evalE σ

/-- All constraints of a list hold under a model. -/
def evalAll (σ : String → Int) (cs : List SBool) : Prop :=
  ∀ c ∈ cs, c.evalSB σ = true

/-! ### Shape and dtype model (`DType`, `ShapeVar` in op.py). -/

inductive DType where
  | float32
  | float64
  | int32
  | int64
  | bool
deriving DecidableEq, Repr

/-- `ShapeVar`: an ordered sequence of dimension values plus a dtype. -/
structure ShapeVar where
  shape : List SVal
  dtype : DType
deriving DecidableEq, Repr

/-- Body of the loop in `ShapeVar.gt_zero`: for a symbolic dim not in
`no_replica` (compared by printed form, i.e. structurally) emit
`dim > 0`; for a concrete dim run `ConstraintCheck.gt(s, 0)` which
raises `ConstraintError` when it fails. -/
def gtZeroGo (no_replica : List Expr) : List SVal → Except Err (List SBool)
  | [] => .ok []
  | .e x :: rest =>
      match gtZeroGo no_replica rest with
      | .error er => .error er
      | .ok tail =>
          if no_replica.any (fun r => r = x) then
            .ok tail
          else
            .ok (nnsmith_gt (.e x) (.c 0) :: tail)
  | .c n :: rest =>
      if 0 < n then gtZeroGo no_replica rest else .error .constraint

/-- `ShapeVar.gt_zero` from op.py (lines 185-193). -/
def ShapeVar.gt_zero (sv : ShapeVar) (no_replica : List Expr) : Except Err (List SBool) :=
  gtZeroGo no_replica sv.shape

/-- `ShapeVar.nelement`: product of the dims (1 for rank 0); the fold
starts from the Python int 1 as in the source. -/
def ShapeVar.nelement (sv : ShapeVar) : SVal :=
  if sv.shape.length = 0 then .c 1
  else sv.shape.foldl nnsmith_mul (.c 1)

/-! ### NCHWConv2d (op.py lines 949-1023). -/

/-- Python-level `2 * v` on a `Union[int, z3.ExprRef]` (z3 builds
`Mul(2, v)` for a symbolic operand). -/
def pyTwoMul : SVal → SVal
  | .c n => .c (2 * n)
  | .e x => .e (.mulE (.intC 2) x)

/-- Python-level `v + 1` on a `Union[int, z3.ExprRef]`. -/
def pyAddOne : SVal → SVal
  | .c n => .c (n + 1)
  | .e x => .e (.addE x (.intC 1))

/-- The loop at the end of `NCHWConv2d._requires`: symbolic constraints
are returned, concrete ones go through `ConstraintCheck.true` which
raises `ConstraintError` when false. -/
def collectSymCons : List SBool → Except Err (List SBool)
  | [] => .ok []
  | .sb x :: rest =>
      match collectSymCons rest with
      | .error er => .error er
      | .ok tail => .ok (.sb x :: tail)
  | .cb b :: rest =>
      if b then collectSymCons rest else .error .constraint

/-- Construction parameters of `NCHWConv2d`, each a concrete int or a
fresh symbol. -/
structure NCHWConv2d where
  in_channels : SVal
  out_channels : SVal
  kernel_h_size : SVal
  kernel_w_size : SVal
  stride : SVal
  padding : SVal
deriving DecidableEq, Repr

/-- `NCHWConv2d._shape_fn` (op.py lines 973-995). The input is NCHW
(`inp_dims = [4]`); indexing a rank-< 4 shape would be a Python
IndexError, modelled by `Err.other`. -/
def NCHWConv2d.shape_fn (op : NCHWConv2d) (inp : ShapeVar) : Except Err (List ShapeVar) :=
  match inp.shape with
  | [s0, s1, s2, s3] =>
    -- concrete in_channels check: `ConstraintCheck.eq(shape[1], in_channels)`
    let chanCheck : Except Err Unit :=
      match op.in_channels, s1 with
      | .c a, .c b => if b = a then .ok () else .error .constraint
      | _, _ => .ok ()
    match chanCheck with
    | .error er => .error er
    | .ok _ =>
      let is_symbolic_inp := inp.shape.any SVal.isSym || op.kernel_w_size.isSym
        || op.kernel_h_size.isSym || op.stride.isSym || op.padding.isSym
      if is_symbolic_inp then
        .ok [⟨[s0, op.out_channels,
          pyAddOne (nnsmith_div (nnsmith_add (nnsmith_sub s2 op.kernel_h_size)
            (pyTwoMul op.padding)) op.stride),
          pyAddOne (nnsmith_div (nnsmith_add (nnsmith_sub s3 op.kernel_w_size)
            (pyTwoMul op.padding)) op.stride)], inp.dtype⟩]
      else
        -- all of s2, s3, kernel sizes, stride, padding are concrete here;
        -- Python `//` by a zero stride raises ZeroDivisionError.
        match s2, s3, op.kernel_h_size, op.kernel_w_size, op.stride, op.padding with
        | .c h, .c w, .c kh, .c kw, .c st, .c pd =>
          if st = 0 then .error .other
          else .ok [⟨[s0, op.out_channels, .c (Int.fdiv (h - kh + 2 * pd) st + 1),
            .c (Int.fdiv (w - kw + 2 * pd) st + 1)], inp.dtype⟩]
        | _, _, _, _, _, _ => .error .other
  | _ => .error .other

/-- `NCHWConv2d._requires` (op.py lines 997-1019). -/
def NCHWConv2d.requires (op : NCHWConv2d) (inp : ShapeVar) : Except Err (List SBool) :=
  match inp.shape with
  | [_, s1, s2, s3] =>
    let cons : List SBool :=
      [nnsmith_eq op.in_channels s1,
       nnsmith_ge op.out_channels (.c 1),
       nnsmith_ge op.kernel_h_size (.c 1),
       nnsmith_ge op.kernel_w_size (.c 1),
       nnsmith_le op.kernel_h_size (nnsmith_add s2 (pyTwoMul op.padding)),
       nnsmith_le op.kernel_w_size (nnsmith_add s3 (pyTwoMul op.padding)),
       nnsmith_ge op.stride (.c 1),
       nnsmith_ge op.padding (.c 0),
       nnsmith_le op.padding (.c 255)]
    collectSymCons cons
  | _ => .error .other

/-! ### Reshape (op.py lines 1026-1089). -/

/-- Python `-1 in target_shape`: int equality for concrete entries;
for a z3 expression `-1 == expr` compares structurally (z3
`AstRef.__bool__` on an equality), hence is false for a symbol. -/
def containsNegOne (target : List SVal) : Bool :=
  target.any (fun v => match v with | .c n => n = -1 | .e _ => false)

/-- Python `[v for v in target_shape if v != -1]`: keeps concrete
entries different from -1; `bool(expr != -1)` on a z3 expression raises
`Z3Exception` (a distinct-node cannot be cast to a concrete bool),
modelled by `Err.other`. -/
def filterNonWild : List SVal → Except Err (List SVal)
  | [] => .ok []
  | .c n :: rest =>
      match filterNonWild rest with
      | .error er => .error er
      | .ok tail => if n = -1 then .ok tail else .ok (.c n :: tail)
  | .e _ :: _ => .error .other

/-- The geometric dim cap loop of `Reshape._requires`: bound each target
dim from the right by `lim`, then `lim //= 2; lim = max(lim, 1)`. -/
def capsGo : List SVal → Int → List SBool
  | [], _ => []
  | s :: rest, lim => nnsmith_le s (.c lim) :: capsGo rest (max (lim / 2) 1)

/-- `Reshape._requires` (op.py lines 1066-1086). `target` is the
operator's `target_shape` construction parameter. -/
def Reshape.requires (target : List SVal) (inputShape : List SVal) : Except Err (List SBool) :=
  if ¬containsNegOne target then
    let total_pixels := target.foldl nnsmith_mul (.c 1)
    .ok (nnsmith_eq total_pixels (inputShape.foldl nnsmith_mul (.c 1))
         :: capsGo target.reverse 4096)
  else
    match filterNonWild target with
    | .error er => .error er
    | .ok nonWild =>
        let minimul_pixels := nonWild.foldl nnsmith_mul (.c 1)
        .ok [nnsmith_eq (nnsmith_mod (inputShape.foldl nnsmith_mul (.c 1))
          minimul_pixels) (.c 0)]

/-! ### Pad (op.py lines 1716-1802).

`post_symbolize` fixes `extra_attrs['mode']` and allocates the `pad`
symbols; `_requires` and `_shape_fn` then only read `self.pad`,
`self.extra_attrs['mode']` and the input shape, so the embedding takes
those as the operator's data. -/

structure PadOp where
  pad : List SVal
  /-- whether `extra_attrs['mode'] == 'constant'`. -/
  modeConstant : Bool
deriving DecidableEq, Repr

/-- The constraint loop of `Pad._requires`: for `i` in
`range(len(pad) // 2)`, with `j = len(isv) - 1 - i`, emit
`pad[2i] + isv[j] >= 0`, `pad[2i+1] + isv[j] >= 0`,
`pad[2i] < isv[j]`, `pad[2i+1] < isv[j]`. -/
def padConsAt (pad isv : List SVal) (i : Nat) : List SBool :=
  let pj := isv.getD (isv.length - 1 - i) (.c 0)
  [nnsmith_ge (nnsmith_add (pad.getD (2 * i) (.c 0)) pj) (.c 0),
   nnsmith_ge (nnsmith_add (pad.getD (2 * i + 1) (.c 0)) pj) (.c 0),
   nnsmith_lt (pad.getD (2 * i) (.c 0)) pj,
   nnsmith_lt (pad.getD (2 * i + 1) (.c 0)) pj]

def padCons (pad isv : List SVal) (k : Nat) : List SBool :=
  ((List.range k).map (padConsAt pad isv)).flatten

/-- `Pad._requires` (op.py lines 1767-1785). The two bare `assert`
statements are fatal; the non-constant-mode pair-count check is a
`ConstraintCheck` (attempt-local). -/
def Pad.requires (op : PadOp) (inp : ShapeVar) : Except Err (List SBool) :=
  let ndims : Int := inp.shape.length
  if op.pad.length % 2 ≠ 0 then .error .sanity
  else if inp.shape.length < op.pad.length / 2 then .error .sanity
  else if ¬op.modeConstant ∧
      ¬((op.pad.length / 2 : Int) = ndims - 1 ∨ (op.pad.length / 2 : Int) = ndims - 2) then
    .error .constraint
  else
    .ok (padCons op.pad inp.shape (op.pad.length / 2))

/-- The update loop of `Pad._shape_fn`: `s[j] = s[j] + pad[2i] + pad[2i+1]`
for `i` in `range(len(pad) // 2)`, `j = len(isv) - 1 - i`.
`padShapeGo pad s0 s k` is the state of `s` after iterations
`0, ..., k-1`, where `s0` is the (fixed-length) original list. -/
def padShapeGo (pad s0 : List SVal) : List SVal → Nat → List SVal
  | s, 0 => s
  | s, i + 1 =>
      let s1 := padShapeGo pad s0 s i
      let j := s0.length - 1 - i
      s1.set j (nnsmith_add (nnsmith_add (s1.getD j (.c 0)) (pad.getD (2 * i) (.c 0)))
        (pad.getD (2 * i + 1) (.c 0)))

/-- `Pad._shape_fn` (op.py lines 1787-1796). -/
def Pad.shape_fn (op : PadOp) (inp : ShapeVar) : Except Err (List ShapeVar) :=
  if op.pad.length % 2 ≠ 0 then .error .sanity
  else if inp.shape.length < op.pad.length / 2 then .error .sanity
  else
    .ok [⟨padShapeGo op.pad inp.shape inp.shape (op.pad.length / 2), inp.dtype⟩]

/-! ### Bitvector width alignment (`align_bvs`, op.py lines 34-81).

The claims about `align_bvs` concern only the *widths* of the operands,
so the embedding works on operand kinds: `arith` is a Python number or
`z3.ArithRef`, `bv w` a `z3.BitVecRef` of width `w`. -/

def ARITH_MAX_WIDTH : Nat := 64

inductive AKind where
  | arith
  | bv : Nat → AKind
deriving DecidableEq, Repr

def AKind.isArith : AKind → Bool
  | .arith => true
  | .bv _ => false

/-- The width the code assigns to each operand:
`ARITH_MAX_WIDTH` for an arithmetic value, `size()` for a bitvector. -/
def AKind.width : AKind → Nat
  | .arith => ARITH_MAX_WIDTH
  | .bv w => w

/-- `align_bvs` (op.py lines 34-81), faithful to the control flow:
both-arith returns immediately; the `SanityCheck`s are fatal; the two
early returns zero-extend only the bitvector operand to
`ARITH_MAX_WIDTH` when the other operand is arithmetic; otherwise both
bitvectors are zero-extended to a common width, then (original) widths
drive the carry extension by one bit (only below `ARITH_MAX_WIDTH`) and
the multiplication extension by `min(max(sizes), ARITH_MAX_WIDTH)`. -/
def align_bvs (left right : AKind) (carry mult : Bool) : Except Err (AKind × AKind) :=
  if left.isArith && right.isArith then .ok (left, right)
  else
    let left_size := left.width
    let right_size := right.width
    if carry && mult then .error .sanity
    else if ¬(left_size ≤ ARITH_MAX_WIDTH) then .error .sanity
    else if ¬(right_size ≤ ARITH_MAX_WIDTH) then .error .sanity
    else
      let diff : Int := (left_size : Int) - (right_size : Int)
      if left.isArith ∧ 0 ≤ diff then .ok (left, .bv (right_size + diff.toNat))
      else if right.isArith ∧ diff ≤ 0 then .ok (.bv (left_size + (-diff).toNat), right)
      else
        -- both operands are bitvectors here; `ZeroExt(k, v)` adds `k`
        -- to the width, so the branch is tracked on widths.
        let lw1 := if diff < 0 then left_size + (-diff).toNat else left_size
        let rw1 := if 0 < diff then right_size + diff.toNat else right_size
        let ext := carry && decide (max left_size right_size < ARITH_MAX_WIDTH)
        let lw2 := if ext then lw1 + 1 else lw1
        let rw2 := if ext then rw1 + 1 else rw1
        if mult then
          let max_val := min (max left_size right_size) ARITH_MAX_WIDTH
          .ok (.bv (lw2 + max_val), .bv (rw2 + max_val))
        else .ok (.bv lw2, .bv rw2)

/-- Whether `nnsmith_ge/gt/le/lt/div/mod` take the unsigned bitvector
form (`UGE`/`UGT`/`ULE`/`ULT`/`UDiv`/`URem`): they align without
carry/mult and test `isinstance(left, BitVecRef) or isinstance(right,
BitVecRef)` on the aligned operands. -/
def usesUnsignedForm (left right : AKind) : Except Err Bool :=
  match align_bvs left right false false with
  | .error er => .error er
  | .ok (l, r) => .ok (!l.isArith || !r.isArith)

/-! ### Broadcasting helpers (op.py lines 242-308). -/

/-- `_prepend_to(x, max_dim)`: left-pad with 1s to length `max_dim`. -/
def B_prepend_to (x : List SVal) (max_dim : Nat) : List SVal :=
  List.replicate (max_dim - x.length) (.c 1) ++ x

/-- `z3_bcast(x, y)` = `z3.If(y == 1, x, y)`. -/
def z3_bcast (x y : SVal) : SVal :=
  .e (.iteEq y.toExpr (.intC 1) x.toExpr y.toExpr)

/-- `z3_bcast(x, y, *args)`: left-nested fold. The callers pass one
entry per input shape, so the list has at least two entries. -/
def z3_bcast_list : List SVal → SVal
  | [] => .c 0
  | [x] => x
  | x :: y :: rest => rest.foldl z3_bcast (z3_bcast x y)

/-- Python `max(*args)` over a nonempty list of concrete dims. -/
def concreteMax : List Int → Int
  | [] => 0
  | a :: rest => rest.foldl max a

def SVal.toIntC : SVal → Int
  | .c n => n
  | .e _ => 0

/-- One axis of `broadcast_shapes`: if any participating (1-padded) dim
is symbolic, the folded `z3_bcast` expression (the source wraps it in
the semantics-preserving `z3.simplify`, modelled as identity), else the
concrete max. -/
def bcastAxis (args : List SVal) : SVal :=
  if args.any SVal.isSym then z3_bcast_list args
  else .c (concreteMax (args.map SVal.toIntC))

/-- `broadcast_shapes` (op.py lines 250-264). The result is indexed
left-to-right; the source loop runs right-to-left but axes are
independent. -/
def broadcast_shapes (shapes : List (List SVal)) : Except Err (List SVal) :=
  match shapes with
  | [] => .error .sanity  -- SanityCheck.gt(len(shapes), 0)
  | [s] => .ok s
  | _ =>
    let max_dim := (shapes.map List.length).foldl max 0
    .ok ((List.range max_dim).map (fun p =>
      bcastAxis (shapes.map (fun x => (B_prepend_to x max_dim).getD p (.c 1)))))

/-- Coerce a builder result into a z3 boolean AST (z3 absorbs Python
bools as `BoolVal`). -/
def SBool.toBExpr : SBool → BExpr
  | .cb b => .boolB b
  | .sb x => x

/-- Python `v == 1` on a `Union[int, z3.ExprRef]`. -/
def pyEqOne : SVal → BExpr
  | .c n => .boolB (n = 1)
  | .e x => .eqB x (.intC 1)

/-- `z3.And(*args)` over the per-shape disjuncts of one symbolic axis
(modelled as a right-nested conjunction; `z3.simplify` as identity). -/
def andList : List BExpr → BExpr
  | [] => .boolB true
  | [x] => x
  | x :: y :: rest => .andB x (andList (y :: rest))

/-- The axis constraint of `broadcast_cons` for a symbolic target axis
`t` at right-offset `j`: for every shape long enough,
`Or(nnsmith_eq(x[i], tgt[i]), x[i] == 1)` with `i = -j-1` indexing the
un-padded shape. -/
def bcastSymAxisCons (shapes : List (List SVal)) (j : Nat) (t : Expr) : BExpr :=
  andList (((shapes.filter (fun x => j < x.length)).map (fun x =>
    let xi := x.getD (x.length - 1 - j) (.c 0)
    BExpr.orB (nnsmith_eq xi (.e t)).toBExpr (pyEqOne xi))))

/-- One axis (right-offset `j`) of the `broadcast_cons` loop:
a symbolic target dim yields the conjunction of per-shape disjuncts;
a concrete target dim yields `z3.BoolVal(valid)` where `valid` checks
every 1-padded concrete dim equals the target or 1 (the source's
rejecting assert is commented out). -/
def broadcast_cons_axis (shapes : List (List SVal)) (tgt : List SVal) (j : Nat) : SBool :=
  let max_dim := tgt.length
  let pos := max_dim - 1 - j
  match tgt.getD pos (.c 0) with
  | .e t => .sb (bcastSymAxisCons shapes j t)
  | .c tval =>
      let args := shapes.map (fun x => (B_prepend_to x max_dim).getD pos (.c 1))
      -- a symbolic arg cannot reach this branch: the target axis would
      -- then be symbolic as well.
      .sb (.boolB (args.all (fun s => match s with
        | .c v => decide (v = tval ∨ v = 1)
        | .e _ => false)))

/-- `broadcast_cons` (op.py lines 267-287); the returned list is
ordered right-to-left as in the source. -/
def broadcast_cons (shapes : List (List SVal)) : Except Err (List SBool) :=
  match broadcast_shapes shapes with
  | .error er => .error er
  | .ok tgt => .ok ((List.range tgt.length).map (broadcast_cons_axis shapes tgt))

/-- One axis of the `broadcast_cons_binary` loop, over the 1-padded
shapes: a symbolic target yields
`Or(lhs == 1, rhs == 1, nnsmith_eq(lhs, rhs))`, a concrete target
yields `z3.BoolVal(lhs == 1 or rhs == 1 or lhs == rhs)`. -/
def broadcast_cons_binary_axis (lhsP rhsP tgt : List SVal) (j : Nat) : SBool :=
  let max_dim := tgt.length
  let pos := max_dim - 1 - j
  let li := lhsP.getD pos (.c 1)
  let ri := rhsP.getD pos (.c 1)
  match tgt.getD pos (.c 0) with
  | .e _ => .sb (.orB (pyEqOne li) (.orB (pyEqOne ri) (nnsmith_eq li ri).toBExpr))
  | .c _ =>
      .sb (.boolB (match li, ri with
        | .c a, .c b => decide (a = 1 ∨ b = 1 ∨ a = b)
        | _, _ => false))

/-- `broadcast_cons_binary` (op.py lines 290-308). -/
def broadcast_cons_binary (lhs rhs : List SVal) : Except Err (List SBool) :=
  match broadcast_shapes [lhs, rhs] with
  | .error er => .error er
  | .ok tgt =>
    .ok ((List.range tgt.length).map (broadcast_cons_binary_axis
      (B_prepend_to lhs tgt.length) (B_prepend_to rhs tgt.length) tgt))

/-! ### `Expand._shape_fn` and `Transpose._shape_fn` (op.py lines
890-900 and 1164-1168).

Both methods update `input_shapes[0].shape` *in place* (an assignment
into the caller's `ShapeVar` object), so the embedding passes the state
explicitly: the result is `(output_shapes, input_shape_after_the_call)`.
A pure `shape_fn` would leave the second component unchanged. -/

/-- `Expand._shape_fn`: for `expand_last_dim <= rank` it assigns
`input_shapes[0].shape[-expand_last_dim] = expand_n` and returns the
input list itself; otherwise it builds a fresh higher-rank shape. -/
def Expand.shape_fn (expand_last_dim : Nat) (expand_n : SVal) (inp : ShapeVar) :
    List ShapeVar × ShapeVar :=
  if expand_last_dim ≤ inp.shape.length then
    let mutated : ShapeVar :=
      ⟨inp.shape.set (inp.shape.length - expand_last_dim) expand_n, inp.dtype⟩
    ([mutated], mutated)
  else
    ([⟨expand_n :: (List.replicate (expand_last_dim - inp.shape.length - 1) (.c 1)
        ++ inp.shape), inp.dtype⟩], inp)

/-- `Transpose._shape_fn` with the swap axes `dim0`, `dim1` already
fixed in `extra_attrs`: swaps the two entries of the caller's shape in
place and returns the same `ShapeVar`. -/
def Transpose.shape_fn (dim0 dim1 : Nat) (inp : ShapeVar) :
    List ShapeVar × ShapeVar :=
  let s := inp.shape
  let mutated : ShapeVar :=
    ⟨(s.set dim0 (s.getD dim1 (.c 0))).set dim1 (s.getD dim0 (.c 0)), inp.dtype⟩
  ([mutated], mutated)

/-! ### Forward insertion (`PureSymbolGen.try_forward_insert_at`,
graph_gen.py lines 942-995, with `forward_insert_node`, lines 634-685).

Defaults of the run: `limnf=True`, `NNSMITH_LIMNF_V='0'` (the running
`n_floats` sum mode). `check_sat` passes the tentative constraints as
*assumptions* (never added to the solver's assertion set) and does not
mutate the assertion set itself; it is modelled as an oracle from
(committed assertions, assumptions) to a solver verdict.

The abstract operator is modelled by what the method consumes of it:
its `requires`, `shape_fn` and `n_floats` results. `out_ranks` and
`n_floats` are absent from `src/nnsmith/abstract/op.py` (the snapshot
predates the callers in graph_gen.py); both are modelled from the spec:
`out_ranks` are the declared output ranks with -1 meaning "any", and
`n_floats` is the operator's contribution to the running element-count
budget. -/

inductive CheckRes where
  | sat
  | unsat
  | unknown
deriving DecidableEq, Repr

structure AbsOp where
  requires : List ShapeVar → Except Err (List SBool)
  shape_fn : List ShapeVar → Except Err (List ShapeVar)
  /-- Modelled from the spec: the operator's element-count contribution
  to the running float budget (missing from the op.py snapshot). -/
  n_floats : List ShapeVar → SVal
  /-- Modelled from the spec: declared output ranks, -1 meaning any
  (missing from the op.py snapshot, graph_gen reads `node.out_ranks`). -/
  out_ranks : List Int

/-- A node of the abstract graph as `forward_insert_node` records it. -/
structure GNode where
  nid : Nat
  nin : Nat
  nout : Nat
  shape_indices : List Nat
  ishape_indices : List Nat
deriving DecidableEq, Repr

/-- An edge of the abstract multi-digraph: producer, consumer, index of
the alive shape it carries, and `(producer_port, consumer_port)`. -/
structure GEdge where
  src : Nat
  dst : Nat
  shape_idx : Nat
  operand_idx : Nat × Nat
deriving DecidableEq, Repr

/-- The generator state the claims are about: the solver's committed
assertion set, the running float count and its bound, the alive-shape
arena (`(producer_node, shape, output_port)` triples), and the abstract
graph. -/
structure GenState where
  assertions : List SBool
  n_floats : SVal
  limit_float : Int
  alive_shapes : List (Nat × ShapeVar × Nat)
  nodes : List GNode
  edges : List GEdge
  next_node_id : Nat

/-- `[self.alive_shapes[idx][1] for idx in ishape_indices]`; an invalid
index is a Python IndexError. -/
def getShapes (alive : List (Nat × ShapeVar × Nat)) : List Nat → Except Err (List ShapeVar)
  | [] => .ok []
  | idx :: rest =>
      match alive.get? idx with
      | none => .error .other
      | some t =>
          match getShapes alive rest with
          | .error er => .error er
          | .ok tail => .ok (t.2.1 :: tail)

/-- `for shape in output_shapes: for c in shape.gt_zero(): ...` -/
def gtZeroAll : List ShapeVar → Except Err (List SBool)
  | [] => .ok []
  | s :: rest =>
      match s.gt_zero [] with
      | .error er => .error er
      | .ok cs =>
          match gtZeroAll rest with
          | .error er => .error er
          | .ok tail => .ok (cs ++ tail)

/-- The `out_ranks` check of `forward_insert_node`: a declared rank of
-1 accepts any output rank (and is then overwritten with it); a
concrete declared rank must equal the produced rank (`SanityCheck.eq`,
fatal). Running out of declared ranks is an IndexError. -/
def checkOutRanks : List Int → List ShapeVar → Except Err Unit
  | _, [] => .ok ()
  | [], _ :: _ => .error .other
  | r :: rs, s :: ss =>
      if r = -1 ∨ r = (s.shape.length : Int) then checkOutRanks rs ss
      else .error .sanity

/-- The in-edges `forward_insert_node` adds: for the `in_idx`-th input
alive shape `idx`, an edge from that shape's producer to the new node
with ports `(producer_output_port, in_idx)`. -/
def mkInEdges (alive : List (Nat × ShapeVar × Nat)) (succ : Nat) :
    List (Nat × Nat) → Except Err (List GEdge)
  | [] => .ok []
  | (in_idx, idx) :: rest =>
      match alive.get? idx with
      | none => .error .other
      | some (pred, _, out_idx) =>
          match mkInEdges alive succ rest with
          | .error er => .error er
          | .ok tail => .ok (⟨pred, succ, idx, (out_idx, in_idx)⟩ :: tail)

/-- `forward_insert_node(node, ishape_indices, oshapes)` on the
non-placeholder, `force_shape_indices=None` path taken by
`try_forward_insert_at`: allocate a fresh node id, register the output
shapes as new alive shapes of the new node, add the node and its
in-edges. -/
def forward_insert_node (st : GenState) (op : AbsOp) (ishape_indices : List Nat)
    (oshapes : List ShapeVar) : Except Err GenState :=
  let succ_nid := st.next_node_id
  match checkOutRanks op.out_ranks oshapes with
  | .error er => .error er
  | .ok _ =>
    let base := st.alive_shapes.length
    let shape_indices := (List.range oshapes.length).map (fun i => base + i)
    let newAlive := (oshapes.enum).map (fun si => (succ_nid, si.2, si.1))
    match mkInEdges st.alive_shapes succ_nid ishape_indices.enum with
    | .error er => .error er
    | .ok newEdges =>
      .ok { st with
        alive_shapes := st.alive_shapes ++ newAlive
        nodes := st.nodes ++ [⟨succ_nid, ishape_indices.length, oshapes.length,
          shape_indices, ishape_indices⟩]
        edges := st.edges ++ newEdges
        next_node_id := st.next_node_id + 1 }

/-- `PureSymbolGen.try_forward_insert_at` (graph_gen.py lines 942-995),
with the solver check as an oracle `checker committed assumptions`.
On a verdict other than `sat` it returns `False` with the state
untouched; on `sat` it adds the tentative constraints to the solver,
updates the running float count and inserts the node. -/
def try_forward_insert_at (checker : List SBool → List SBool → CheckRes)
    (st : GenState) (op : AbsOp) (ishape_indices : List Nat) :
    Except Err (Bool × GenState) :=
  match getShapes st.alive_shapes ishape_indices with
  | .error er => .error er
  | .ok input_shapes =>
  match op.requires input_shapes with
  | .error er => .error er
  | .ok cs0 =>
  match op.shape_fn input_shapes with
  | .error er => .error er
  | .ok output_shapes =>
  let tmp_n_floats := nnsmith_add st.n_floats (op.n_floats input_shapes)
  match gtZeroAll output_shapes with
  | .error er => .error er
  | .ok gz =>
  let constraints := cs0 ++ gz
  let res := checker st.assertions
    (constraints ++ [nnsmith_le tmp_n_floats (.c st.limit_float)])
  -- `on_timeout` is a no-op in PureSymbolGen.
  if res ≠ .sat then
    .ok (false, st)
  else
    let st1 := { st with assertions := st.assertions ++ constraints,
                         n_floats := tmp_n_floats }
    match forward_insert_node st1 op ishape_indices output_shapes with
    | .error er => .error er
    | .ok st2 => .ok (true, st2)

/-! ### Placeholder finalization (`SimpleGenerator.abstract_gen`,
graph_gen.py lines 544-554).

The `Placeholder` pseudo-operator and its `to_input` / `to_const`
conversions are absent from the op.py snapshot; they are modelled from
the spec: a Placeholder produces one output shape and becomes an Input
or a Constant at finalization. Only the operator tag matters here. -/

inductive NodeOp where
  | placeholder
  | inputOp
  | constantOp
  | otherOp
deriving DecidableEq, Repr

/-- Overwrite the operator of node `p` (the graph is an association
list of `(node_id, operator_tag)`). -/
def setOp (g : List (Nat × NodeOp)) (p : Nat) (op : NodeOp) : List (Nat × NodeOp) :=
  g.map (fun n => if n.1 = p then (n.1, op) else n)

/-- The loop over `shuffled_placeholder[1:]`: `random.randint(0, 1)`
(modelled by the coin stream) picks `to_const` on 1 and `to_input` on
0. -/
def finalizeRest (coins : Nat → Bool) : List (Nat × NodeOp) → List Nat → Nat →
    List (Nat × NodeOp)
  | g, [], _ => g
  | g, p :: ps, i =>
      finalizeRest coins (setOp g p (if coins i then .constantOp else .inputOp)) ps (i + 1)

/-- The finalization block of `abstract_gen`: the first recorded
placeholder becomes an Input, every further one independently an Input
or a Constant. `shuffled_placeholder[0]` on an empty placeholder list
would be an IndexError. -/
def finalize_placeholders (g : List (Nat × NodeOp)) (placeholders : List Nat)
    (coins : Nat → Bool) : Except Err (List (Nat × NodeOp)) :=
  match placeholders with
  | [] => .error .other
  | p0 :: rest => .ok (finalizeRest coins (setOp g p0 .inputOp) rest 0)

/-! ## Helper lemmas: the builders commute with evaluation. -/

theorem evalS_nnsmith_mul (σ : String → Int) (a b : SVal) :
    (nnsmith_mul a b).evalS σ = a.evalS σ * b.evalS σ := by
  cases a <;> cases b <;> simp [nnsmith_mul, SVal.evalS, SVal.toExpr, Expr.evalE]

theorem evalS_nnsmith_add (σ : String → Int) (a b : SVal) :
    (nnsmith_add a b).evalS σ = a.evalS σ + b.evalS σ := by
  cases a <;> cases b <;> simp [nnsmith_add, SVal.evalS, SVal.toExpr, Expr.evalE]

theorem evalS_nnsmith_sub (σ : String → Int) (a b : SVal) :
    (nnsmith_sub a b).evalS σ = a.evalS σ - b.evalS σ := by
  cases a <;> cases b <;> simp [nnsmith_sub, SVal.evalS, SVal.toExpr, Expr.evalE]

theorem evalS_nnsmith_div (σ : String → Int) (a b : SVal) :
    (nnsmith_div a b).evalS σ = Int.fdiv (a.evalS σ) (b.evalS σ) := by
  cases a <;> cases b <;> simp [nnsmith_div, SVal.evalS, SVal.toExpr, Expr.evalE]

theorem evalS_nnsmith_mod (σ : String → Int) (a b : SVal) :
    (nnsmith_mod a b).evalS σ = Int.fmod (a.evalS σ) (b.evalS σ) := by
  cases a <;> cases b <;> simp [nnsmith_mod, SVal.evalS, SVal.toExpr, Expr.evalE]

theorem evalSB_nnsmith_eq (σ : String → Int) (a b : SVal) :
    (nnsmith_eq a b).evalSB σ = decide (a.evalS σ = b.evalS σ) := by
  cases a <;> cases b <;>
    simp [nnsmith_eq, SBool.evalSB, BExpr.evalB, SVal.evalS, SVal.toExpr, Expr.evalE]

theorem evalSB_nnsmith_ge (σ : String → Int) (a b : SVal) :
    (nnsmith_ge a b).evalSB σ = decide (b.evalS σ ≤ a.evalS σ) := by
  cases a <;> cases b <;>
    simp [nnsmith_ge, SBool.evalSB, BExpr.evalB, SVal.evalS, SVal.toExpr, Expr.evalE]

theorem evalSB_nnsmith_gt (σ : String → Int) (a b : SVal) :
    (nnsmith_gt a b).evalSB σ = decide (b.evalS σ < a.evalS σ) := by
  cases a <;> cases b <;>
    simp [nnsmith_gt, SBool.evalSB, BExpr.evalB, SVal.evalS, SVal.toExpr, Expr.evalE]

theorem evalSB_nnsmith_le (σ : String → Int) (a b : SVal) :
    (nnsmith_le a b).evalSB σ = decide (a.evalS σ ≤ b.evalS σ) := by
  cases a <;> cases b <;>
    simp [nnsmith_le, SBool.evalSB, BExpr.evalB, SVal.evalS, SVal.toExpr, Expr.evalE]

theorem evalSB_nnsmith_lt (σ : String → Int) (a b : SVal) :
    (nnsmith_lt a b).evalSB σ = decide (a.evalS σ < b.evalS σ) := by
  cases a <;> cases b <;>
    simp [nnsmith_lt, SBool.evalSB, BExpr.evalB, SVal.evalS, SVal.toExpr, Expr.evalE]

theorem evalS_foldl_mul (σ : String → Int) (l : List SVal) (a : SVal) :
    (l.foldl nnsmith_mul a).evalS σ = a.evalS σ * (l.map (SVal.evalS σ)).prod := by
  induction l generalizing a with
  | nil => simp
  | cons hd tl ih =>
    simp only [List.foldl_cons, List.map_cons, List.prod_cons, ih, evalS_nnsmith_mul]
    ring

/-! ## C4: `ShapeVar.gt_zero` -/

/-- What `gt_zero` keeps of each dim: a `dim > 0` constraint for a
symbolic dim, nothing for a concrete one. -/
def gtCons : SVal → Option SBool
  | .e x => some (.sb (.gtB x (.intC 0)))
  | .c _ => none

theorem gtZeroGo_ok_of_pos (dims : List SVal)
    (h : ∀ n : Int, SVal.c n ∈ dims → 0 < n) :
    gtZeroGo [] dims = .ok (dims.filterMap gtCons) := by
  induction dims with
  | nil => rfl
  | cons hd tl ih =>
    have htl : ∀ n : Int, SVal.c n ∈ tl → 0 < n :=
      fun n hn => h n (List.mem_cons_of_mem _ hn)
    cases hd with
    | c n =>
      have hn : 0 < n := h n (List.mem_cons_self _ _)
      simp [gtZeroGo, hn, ih htl, List.filterMap_cons, gtCons]
    | e x =>
      simp [gtZeroGo, ih htl, List.filterMap_cons, gtCons, nnsmith_gt,
        Except.bind, SVal.toExpr]

theorem gtZeroGo_error_of_nonpos (dims : List SVal)
    (h : ∃ n : Int, SVal.c n ∈ dims ∧ n ≤ 0) :
    gtZeroGo [] dims = .error .constraint := by
  induction dims with
  | nil => simp at h
  | cons hd tl ih =>
    obtain ⟨n, hmem, hn⟩ := h
    cases hd with
    | c m =>
      by_cases hm : 0 < m
      · have : SVal.c n ∈ tl := by
          rcases List.mem_cons.mp hmem with heq | htl
          · exact absurd hm (by simp_all; omega)
          · exact htl
        simp [gtZeroGo, hm, ih ⟨n, this, hn⟩]
      · simp [gtZeroGo, hm]
    | e x =>
      have : SVal.c n ∈ tl := by
        rcases List.mem_cons.mp hmem with heq | htl
        · simp at heq
        · exact htl
      simp [gtZeroGo, ih ⟨n, this, hn⟩, Except.bind]

/-- C4 (confirmed): the positivity predicate of a tensor shape, with the
default empty `no_replica`, returns exactly one `dim > 0` constraint per
symbolic dim and nothing for concrete dims, and raises the
attempt-local `ConstraintError` if and only if some concrete dim is
`≤ 0`. -/
theorem C4_gt_zero_spec (dims : List SVal) (dt : DType) :
    (ShapeVar.gt_zero ⟨dims, dt⟩ [] = .ok (dims.filterMap gtCons)
      ↔ ∀ n : Int, SVal.c n ∈ dims → 0 < n)
    ∧ (ShapeVar.gt_zero ⟨dims, dt⟩ [] = .error .constraint
      ↔ ∃ n : Int, SVal.c n ∈ dims ∧ n ≤ 0) := by
  unfold ShapeVar.gt_zero
  constructor
  · constructor
    · intro hok
      by_contra hneg
      push_neg at hneg
      obtain ⟨n, hmem, hn⟩ := hneg
      rw [gtZeroGo_error_of_nonpos dims ⟨n, hmem, by omega⟩] at hok
      exact absurd hok (by simp)
    · exact gtZeroGo_ok_of_pos dims
  · constructor
    · intro herr
      by_contra hneg
      push_neg at hneg
      rw [gtZeroGo_ok_of_pos dims hneg] at herr
      exact absurd herr (by simp)
    · exact gtZeroGo_error_of_nonpos dims

/-! ## C7: `shape_fn` purity -/

/-- C7 (code bug): `Expand._shape_fn` and `Transpose._shape_fn` mutate
the caller's input `ShapeVar` in place, so `shape_fn` is not pure:
evaluated at the failing inputs below, the input shape after the call
differs from the shape before it (`Expand` overwrites the addressed dim
with `expand_n`; `Transpose` swaps the caller's dims). -/
theorem C7_shape_fn_mutates_input :
    (Expand.shape_fn 1 (.e (.var "n")) ⟨[.c 2, .c 3], .float32⟩).2 ≠
      ⟨[.c 2, .c 3], .float32⟩ ∧
    (Transpose.shape_fn 0 1 ⟨[.e (.var "u"), .e (.var "v")], .float32⟩).2 ≠
      ⟨[.e (.var "u"), .e (.var "v")], .float32⟩ := by
  decide

/-! ## C5: bitvector width alignment -/

/-- C5 (counterexample): the claim says that with at least one
bitvector operand, addition extends the common width by one bit to hold
the carry. At two 64-bit operands `align_bvs` performs no carry
extension: the aligned pair stays at width 64, not 64 + 1. -/
theorem C5_counterexample :
    align_bvs (.bv 64) (.bv 64) true false = .ok (.bv 64, .bv 64) ∧
    align_bvs (.bv 64) (.bv 64) true false ≠ .ok (.bv (64 + 1), .bv (64 + 1)) := by
  constructor
  · rfl
  · intro h
    rw [show align_bvs (.bv 64) (.bv 64) true false = .ok (.bv 64, .bv 64) from rfl] at h
    simp at h

theorem align_bvs_carry (wl wr : Nat) (hl : wl ≤ 64) (hr : wr ≤ 64) :
    align_bvs (.bv wl) (.bv wr) true false =
      .ok (.bv (if max wl wr < 64 then max wl wr + 1 else max wl wr),
           .bv (if max wl wr < 64 then max wl wr + 1 else max wl wr)) := by
  unfold align_bvs
  simp only [AKind.isArith, AKind.width, ARITH_MAX_WIDTH, Bool.and_false, Bool.false_and,
    Bool.and_self, Bool.false_eq_true, if_false, false_and, decide_eq_true_eq,
    Bool.true_and]
  split_ifs with h1 h2 h3 h4 h5 h6 h7 <;>
    simp only [Except.ok.injEq, Prod.mk.injEq, AKind.bv.injEq, AKind.width] <;>
    omega

theorem align_bvs_mult (wl wr : Nat) (hl : wl ≤ 64) (hr : wr ≤ 64) :
    align_bvs (.bv wl) (.bv wr) false true =
      .ok (.bv (2 * max wl wr), .bv (2 * max wl wr)) := by
  unfold align_bvs
  simp only [AKind.isArith, AKind.width, ARITH_MAX_WIDTH, Bool.and_false, Bool.false_and,
    Bool.and_self, Bool.false_eq_true, if_false, false_and, decide_eq_true_eq,
    Bool.true_and]
  split_ifs with h1 h2 h3 <;>
    simp only [Except.ok.injEq, Prod.mk.injEq, AKind.bv.injEq, AKind.width] <;>
    omega

theorem align_bvs_plain (wl wr : Nat) (hl : wl ≤ 64) (hr : wr ≤ 64) :
    align_bvs (.bv wl) (.bv wr) false false =
      .ok (.bv (max wl wr), .bv (max wl wr)) := by
  unfold align_bvs
  simp only [AKind.isArith, AKind.width, ARITH_MAX_WIDTH, Bool.and_false, Bool.false_and,
    Bool.and_self, Bool.false_eq_true, if_false, false_and, decide_eq_true_eq,
    Bool.true_and]
  split_ifs with h1 h2 h3 <;>
    simp only [Except.ok.injEq, Prod.mk.injEq, AKind.bv.injEq, AKind.width] <;>
    omega

theorem align_bvs_arith_left (wr : Nat) (hr : wr ≤ 64) (c m : Bool)
    (hcm : ¬(c = true ∧ m = true)) :
    align_bvs .arith (.bv wr) c m = .ok (.arith, .bv 64) := by
  have hf : (c && m) = false := by cases c <;> cases m <;> simp_all
  unfold align_bvs
  simp only [AKind.isArith, AKind.width, ARITH_MAX_WIDTH, Bool.true_and, hf,
    Bool.false_eq_true, if_false, true_and]
  split_ifs <;>
    first
    | rfl
    | (exfalso; omega)
    | (simp only [Except.ok.injEq, Prod.mk.injEq, AKind.bv.injEq, true_and, and_true]
       omega)

theorem align_bvs_arith_right (wl : Nat) (hl : wl ≤ 64) (c m : Bool)
    (hcm : ¬(c = true ∧ m = true)) :
    align_bvs (.bv wl) .arith c m = .ok (.bv 64, .arith) := by
  have hf : (c && m) = false := by cases c <;> cases m <;> simp_all
  unfold align_bvs
  simp only [AKind.isArith, AKind.width, ARITH_MAX_WIDTH, Bool.and_true, Bool.false_and,
    hf, Bool.false_eq_true, if_false, false_and, and_true, true_and]
  split_ifs <;>
    first
    | rfl
    | (exfalso; omega)
    | (simp only [Except.ok.injEq, Prod.mk.injEq, AKind.bv.injEq, true_and, and_true]
       omega)

theorem align_bvs_too_wide (wl wr : Nat) (hl : 64 < wl) (c m : Bool) :
    align_bvs (.bv wl) (.bv wr) c m = .error .sanity := by
  unfold align_bvs
  simp only [AKind.isArith, AKind.width, ARITH_MAX_WIDTH, Bool.false_and,
    Bool.false_eq_true, if_false, false_and]
  split_ifs <;>
    first
    | rfl
    | (exfalso; omega)

/-- C5 (amended): in the arithmetic layer, concrete operands evaluate
immediately; *when both operands are bitvectors* (of legal widths) they
are zero-extended to the common width `max wl wr`, addition extends
that width by one bit only when it is still below the 64-bit cap,
multiplication doubles it; when exactly one operand is an arithmetic
value the bitvector operand is zero-extended straight to 64 bits with
no carry or multiplication adjustment; division, modulo and the
ordering comparisons take the unsigned form whenever a bitvector is
involved; an operand wider than 64 bits is a fatal sanity error. -/
theorem C5_align_bvs_spec (wl wr : Nat) (hl : wl ≤ 64) (hr : wr ≤ 64) :
    (align_bvs (.bv wl) (.bv wr) true false =
      .ok (.bv (if max wl wr < 64 then max wl wr + 1 else max wl wr),
           .bv (if max wl wr < 64 then max wl wr + 1 else max wl wr))) ∧
    (align_bvs (.bv wl) (.bv wr) false true =
      .ok (.bv (2 * max wl wr), .bv (2 * max wl wr))) ∧
    (align_bvs (.bv wl) (.bv wr) false false =
      .ok (.bv (max wl wr), .bv (max wl wr))) ∧
    (∀ c m : Bool, ¬(c = true ∧ m = true) →
      align_bvs .arith (.bv wr) c m = .ok (.arith, .bv 64) ∧
      align_bvs (.bv wl) .arith c m = .ok (.bv 64, .arith)) ∧
    (∀ c m : Bool, align_bvs (.bv (65 + wl)) (.bv wr) c m = .error .sanity) ∧
    (usesUnsignedForm (.bv wl) (.bv wr) = .ok true ∧
     usesUnsignedForm .arith (.bv wr) = .ok true ∧
     usesUnsignedForm (.bv wl) .arith = .ok true ∧
     usesUnsignedForm .arith .arith = .ok false) ∧
    (∀ a b : Int, nnsmith_add (.c a) (.c b) = .c (a + b) ∧
      nnsmith_mul (.c a) (.c b) = .c (a * b) ∧
      nnsmith_div (.c a) (.c b) = .c (Int.fdiv a b)) := by
  refine ⟨align_bvs_carry wl wr hl hr, align_bvs_mult wl wr hl hr,
    align_bvs_plain wl wr hl hr,
    fun c m hcm => ⟨align_bvs_arith_left wr hr c m hcm,
      align_bvs_arith_right wl hl c m hcm⟩,
    fun c m => align_bvs_too_wide (65 + wl) wr (by omega) c m,
    ⟨?_, ?_, ?_, rfl⟩, fun a b => ⟨rfl, rfl, rfl⟩⟩
  · simp [usesUnsignedForm, align_bvs_plain wl wr hl hr, AKind.isArith]
  · simp [usesUnsignedForm,
      align_bvs_arith_left wr hr false false (by simp), AKind.isArith]
  · simp [usesUnsignedForm,
      align_bvs_arith_right wl hl false false (by simp), AKind.isArith]

/-- Witness for `C5_align_bvs_spec` at `wl = 8`, `wr = 6`. -/
theorem C5_align_bvs_spec_witness :
    (align_bvs (.bv 8) (.bv 6) true false = .ok (.bv 9, .bv 9)) ∧
    (align_bvs (.bv 8) (.bv 6) false true = .ok (.bv 16, .bv 16)) ∧
    (usesUnsignedForm (.bv 8) (.bv 6) = .ok true) := by
  obtain ⟨h1, h2, _, _, _, ⟨h6, _⟩, _⟩ :=
    C5_align_bvs_spec 8 6 (by decide) (by decide)
  refine ⟨?_, ?_, h6⟩
  · simpa using h1
  · simpa using h2

/-! ## C2: NCHWConv2d -/

/-- The NCHWConv2d instance the generator builds: every construction
parameter is a fresh symbol. -/
def convSym : NCHWConv2d :=
  ⟨.e (.var "in_c"), .e (.var "out_c"), .e (.var "k_h"), .e (.var "k_w"),
   .e (.var "strd"), .e (.var "padd")⟩

/-- The nine constraints `NCHWConv2d._requires` emits for `convSym` on
an NCHW input `[n, c, h, w]`. -/
def convReqList (c h w : SVal) : List SBool :=
  [.sb (.eqB (.var "in_c") c.toExpr),
   .sb (.geB (.var "out_c") (.intC 1)),
   .sb (.geB (.var "k_h") (.intC 1)),
   .sb (.geB (.var "k_w") (.intC 1)),
   .sb (.leB (.var "k_h") (.addE h.toExpr (.mulE (.intC 2) (.var "padd")))),
   .sb (.leB (.var "k_w") (.addE w.toExpr (.mulE (.intC 2) (.var "padd")))),
   .sb (.geB (.var "strd") (.intC 1)),
   .sb (.geB (.var "padd") (.intC 0)),
   .sb (.leB (.var "padd") (.intC 255))]

/-- The symbolic output dim `(d - k + 2·padding) / stride + 1` built by
`NCHWConv2d._shape_fn`. -/
def convOutDim (d : SVal) (k : String) : Expr :=
  .addE (.divE (.addE (.subE d.toExpr (.var k)) (.mulE (.intC 2) (.var "padd")))
    (.var "strd")) (.intC 1)

/-- C2 (confirmed): for every rank-4 input shape, `NCHWConv2d.requires`
with symbolic construction parameters returns exactly the nine
constraints `in_channels == input.shape[1]`, `out_channels ≥ 1`,
`kernel_h ≥ 1`, `kernel_w ≥ 1`, `kernel_h ≤ H + 2·padding`,
`kernel_w ≤ W + 2·padding`, `stride ≥ 1`, `padding ≥ 0`,
`padding ≤ 255` (a concrete member would instead be checked
immediately by `collectSymCons`), whose conjunction holds under a model
exactly when the nine arithmetic conditions do; and `shape_fn` returns
one rank-4 shape copying batch dim and dtype, with channel dim
`out_channels` and `H' = (H - kernel_h + 2·padding) / stride + 1`
(floor division), analogously `W'`. -/
theorem C2_conv_spec (n c h w : SVal) (dt : DType) :
    (NCHWConv2d.requires convSym ⟨[n, c, h, w], dt⟩ = .ok (convReqList c h w)) ∧
    (NCHWConv2d.shape_fn convSym ⟨[n, c, h, w], dt⟩ =
      .ok [⟨[n, .e (.var "out_c"), .e (convOutDim h "k_h"), .e (convOutDim w "k_w")],
        dt⟩]) ∧
    (∀ σ : String → Int,
      evalAll σ (convReqList c h w) ↔
        (σ "in_c" = c.evalS σ ∧ 1 ≤ σ "out_c" ∧ 1 ≤ σ "k_h" ∧ 1 ≤ σ "k_w" ∧
         σ "k_h" ≤ h.evalS σ + 2 * σ "padd" ∧
         σ "k_w" ≤ w.evalS σ + 2 * σ "padd" ∧
         1 ≤ σ "strd" ∧ 0 ≤ σ "padd" ∧ σ "padd" ≤ 255)) ∧
    (∀ σ : String → Int,
      (convOutDim h "k_h").evalE σ =
        Int.fdiv (h.evalS σ - σ "k_h" + 2 * σ "padd") (σ "strd") + 1 ∧
      (convOutDim w "k_w").evalE σ =
        Int.fdiv (w.evalS σ - σ "k_w" + 2 * σ "padd") (σ "strd") + 1) := by
  refine ⟨?_, ?_, ?_, ?_⟩
  · cases c <;> cases h <;> cases w <;> rfl
  · simp [NCHWConv2d.shape_fn, convSym, SVal.isSym, Bool.or_true, convOutDim,
      nnsmith_sub, nnsmith_add, nnsmith_div, pyTwoMul, pyAddOne]
    cases h <;> cases w <;> simp [SVal.toExpr, nnsmith_sub, nnsmith_add,
      nnsmith_div, pyAddOne]
  · intro σ
    simp [convReqList, evalAll, List.forall_mem_cons, SBool.evalSB, BExpr.evalB,
      Expr.evalE, SVal.evalS, and_assoc]
  · intro σ
    exact ⟨rfl, rfl⟩

/-! ## C3: Reshape -/

/-- The constraint list claim C3 describes (modelled from the *claim's*
wording, for comparison with `Reshape.requires`, which is from the
source): the product, resp. divisibility, constraint plus — in either
case — the geometric caps on the target dims. -/
def Reshape.requiresClaimed (target inputShape : List SVal) : Except Err (List SBool) :=
  if ¬containsNegOne target then
    .ok (nnsmith_eq (target.foldl nnsmith_mul (.c 1))
          (inputShape.foldl nnsmith_mul (.c 1)) :: capsGo target.reverse 4096)
  else
    match filterNonWild target with
    | .error er => .error er
    | .ok nonWild =>
        .ok (nnsmith_eq (nnsmith_mod (inputShape.foldl nnsmith_mul (.c 1))
              (nonWild.foldl nnsmith_mul (.c 1))) (.c 0)
             :: capsGo target.reverse 4096)

/-- C3 counterexample: at the concrete wildcard target `[-1, 2]` with a
symbolic rank-2 input, `Reshape._requires` returns only the
divisibility constraint — no geometric cap constraints — while the
claim's reading adds the caps in either case. -/
theorem C3_counterexample :
    Reshape.requires [.c (-1), .c 2] [.e (.var "a"), .e (.var "b")] =
      .ok [.sb (.eqB (.modE (.mulE (.mulE (.intC 1) (.var "a")) (.var "b"))
        (.intC 2)) (.intC 0))] ∧
    Reshape.requiresClaimed [.c (-1), .c 2] [.e (.var "a"), .e (.var "b")] ≠
      Reshape.requires [.c (-1), .c 2] [.e (.var "a"), .e (.var "b")] := by
  constructor
  · rfl
  · intro hEq
    have h1 : Reshape.requiresClaimed [.c (-1), .c 2] [.e (.var "a"), .e (.var "b")] =
        .ok [.sb (.eqB (.modE (.mulE (.mulE (.intC 1) (.var "a")) (.var "b"))
          (.intC 2)) (.intC 0)), .cb true, .cb true] := rfl
    have h2 : Reshape.requires [.c (-1), .c 2] [.e (.var "a"), .e (.var "b")] =
        .ok [.sb (.eqB (.modE (.mulE (.mulE (.intC 1) (.var "a")) (.var "b"))
          (.intC 2)) (.intC 0))] := rfl
    rw [h1, h2] at hEq
    simp at hEq

theorem evalS_c (σ : String → Int) (n : Int) : (SVal.c n).evalS σ = n := rfl

theorem evalAll_cons (σ : String → Int) (x : SBool) (xs : List SBool) :
    evalAll σ (x :: xs) ↔ x.evalSB σ = true ∧ evalAll σ xs := by
  simp [evalAll]

theorem evalAll_singleton (σ : String → Int) (x : SBool) :
    evalAll σ [x] ↔ x.evalSB σ = true := by
  simp [evalAll]

theorem capsGo_length (l : List SVal) (lim : Int) :
    (capsGo l lim).length = l.length := by
  induction l generalizing lim with
  | nil => rfl
  | cons hd tl ih => simp [capsGo, ih]

/-- `limFrom lim i`: the bound the cap loop of `Reshape._requires` uses
at the `i`-th target dim from the right, having started at `lim`
(`4096, 2048, ..., 1, 1, ...` from `lim = 4096`). -/
def limFrom (lim : Int) : Nat → Int
  | 0 => lim
  | i + 1 => limFrom (max (lim / 2) 1) i

theorem capsGo_eval (σ : String → Int) (l : List SVal) (lim : Int) :
    evalAll σ (capsGo l lim) ↔
      ∀ i < l.length, (l.getD i (.c 0)).evalS σ ≤ limFrom lim i := by
  induction l generalizing lim with
  | nil => simp [capsGo, evalAll]
  | cons hd tl ih =>
    constructor
    · intro hall i hi
      match i with
      | 0 =>
        have := hall (nnsmith_le hd (.c lim)) (List.mem_cons_self _ _)
        rw [evalSB_nnsmith_le] at this
        simpa [limFrom] using this
      | j + 1 =>
        have htl : evalAll σ (capsGo tl (max (lim / 2) 1)) :=
          fun x hx => hall x (List.mem_cons_of_mem _ hx)
        have := (ih (max (lim / 2) 1)).mp htl j (by simpa using hi)
        simpa [limFrom] using this
    · intro hall x hx
      rcases List.mem_cons.mp hx with hhd | htl
      · subst hhd
        rw [evalSB_nnsmith_le]
        have := hall 0 (by simp)
        simpa [limFrom] using this
      · refine (ih (max (lim / 2) 1)).mpr ?_ x htl
        intro j hj
        have := hall (j + 1) (by simpa using Nat.succ_lt_succ hj)
        simpa [limFrom] using this

/-- `filterNonWild` on an all-concrete target keeps exactly the entries
different from the literal -1. -/
theorem filterNonWild_concrete (target : List SVal)
    (hconc : ∀ v ∈ target, v.isSym = false) :
    filterNonWild target = .ok (target.filter (fun v => v ≠ SVal.c (-1))) := by
  induction target with
  | nil => rfl
  | cons hd tl ih =>
    have htl : ∀ v ∈ tl, v.isSym = false := fun v hv => hconc v (List.mem_cons_of_mem _ hv)
    cases hd with
    | c n =>
      by_cases hn : n = -1 <;>
        simp [filterNonWild, ih htl, List.filter_cons, hn]
    | e x =>
      have := hconc (.e x) (List.mem_cons_self _ _)
      simp [SVal.isSym] at this

/-- C3 (amended): `Reshape.requires` emits the product-equality
constraint *and* the geometric caps (`4096, 2048, ...` from the right,
floored at 1) when the target has no wildcard; when the target contains
the wildcard -1 it emits *only* the divisibility constraint — no cap
constraints — over the product of the non-wildcard target entries. -/
theorem C3_reshape_spec (target inputShape : List SVal) :
    (containsNegOne target = false →
      ∃ cs, Reshape.requires target inputShape = .ok cs ∧
        cs.length = 1 + target.length ∧
        ∀ σ : String → Int,
          evalAll σ cs ↔
            ((target.map (SVal.evalS σ)).prod =
              (inputShape.map (SVal.evalS σ)).prod ∧
             ∀ i < target.length,
               (target.reverse.getD i (.c 0)).evalS σ ≤ limFrom 4096 i)) ∧
    (containsNegOne target = true → (∀ v ∈ target, v.isSym = false) →
      ∃ cs, Reshape.requires target inputShape = .ok cs ∧
        cs.length = 1 ∧
        ∀ σ : String → Int,
          evalAll σ cs ↔
            Int.fmod (inputShape.map (SVal.evalS σ)).prod
              ((target.filter (fun v => v ≠ SVal.c (-1))).map (SVal.evalS σ)).prod
              = 0) := by
  constructor
  · intro hnw
    refine ⟨nnsmith_eq (target.foldl nnsmith_mul (.c 1))
        (inputShape.foldl nnsmith_mul (.c 1)) :: capsGo target.reverse 4096,
      ?_, ?_, ?_⟩
    · simp [Reshape.requires, hnw]
    · simp [capsGo_length]
      omega
    · intro σ
      rw [evalAll_cons, evalSB_nnsmith_eq, capsGo_eval]
      simp only [decide_eq_true_eq, evalS_foldl_mul, evalS_c, one_mul,
        List.length_reverse]
  · intro hw hconc
    refine ⟨[nnsmith_eq (nnsmith_mod (inputShape.foldl nnsmith_mul (.c 1))
        ((target.filter (fun v => v ≠ SVal.c (-1))).foldl nnsmith_mul (.c 1)))
        (.c 0)], ?_, rfl, ?_⟩
    · simp [Reshape.requires, hw, filterNonWild_concrete target hconc]
    · intro σ
      rw [evalAll_singleton, evalSB_nnsmith_eq, evalS_nnsmith_mod]
      simp only [decide_eq_true_eq, evalS_foldl_mul, evalS_c, one_mul]

/-- Witness for `C3_reshape_spec`: the no-wildcard branch at target
`[t0, 2]` and input `[8]`. -/
theorem C3_reshape_spec_witness :
    ∃ cs, Reshape.requires [SVal.e (.var "t0"), SVal.c 2] [SVal.c 8] = .ok cs ∧
      cs.length = 1 + [SVal.e (.var "t0"), SVal.c 2].length ∧
      ∀ σ : String → Int,
        evalAll σ cs ↔
          (([SVal.e (.var "t0"), SVal.c 2].map (SVal.evalS σ)).prod =
            ([SVal.c 8].map (SVal.evalS σ)).prod ∧
           ∀ i < [SVal.e (.var "t0"), SVal.c 2].length,
             (([SVal.e (.var "t0"), SVal.c 2].reverse).getD i (.c 0)).evalS σ ≤
               limFrom 4096 i) :=
  (C3_reshape_spec [SVal.e (.var "t0"), SVal.c 2] [SVal.c 8]).1 rfl

/-! ## C6: Pad -/

theorem getD_set_eq_of_lt (l : List SVal) (m : Nat) (a d : SVal) (h : m < l.length) :
    (l.set m a).getD m d = a := by
  show ((l.set m a).get? m).getD d = a
  rw [List.get?_eq_getElem?, List.getElem?_set_eq_of_lt a h]
  rfl

theorem getD_set_ne (l : List SVal) (m n : Nat) (a d : SVal) (h : m ≠ n) :
    (l.set m a).getD n d = l.getD n d := by
  show ((l.set m a).get? n).getD d = (l.get? n).getD d
  rw [List.get?_eq_getElem?, List.getElem?_set_ne h, ← List.get?_eq_getElem?]

theorem padShapeGo_length (pad s0 s : List SVal) (k : Nat) :
    (padShapeGo pad s0 s k).length = s.length := by
  induction k with
  | zero => rfl
  | succ i ih => simp [padShapeGo, ih]

theorem padShapeGo_getD (pad s0 : List SVal) (k : Nat) (hk : k ≤ s0.length)
    (j : Nat) (hj : j < s0.length) :
    (padShapeGo pad s0 s0 k).getD j (.c 0) =
      if s0.length - k ≤ j then
        nnsmith_add (nnsmith_add (s0.getD j (.c 0))
          (pad.getD (2 * (s0.length - 1 - j)) (.c 0)))
          (pad.getD (2 * (s0.length - 1 - j) + 1) (.c 0))
      else s0.getD j (.c 0) := by
  induction k with
  | zero =>
    rw [if_neg (by omega)]
    rfl
  | succ i ih =>
    have hik : i ≤ s0.length := by omega
    simp only [padShapeGo]
    rcases eq_or_ne j (s0.length - 1 - i) with hji | hji
    · rw [← hji, getD_set_eq_of_lt _ _ _ _ (by rw [padShapeGo_length]; omega)]
      rw [ih hik, if_neg (by omega)]
      have h2 : s0.length - 1 - j = i := by omega
      rw [if_pos (by omega), h2]
    · rw [getD_set_ne _ _ _ _ _ (fun hx => hji hx.symm), ih hik]
      by_cases hcond : s0.length - i ≤ j
      · rw [if_pos hcond, if_pos (by omega)]
      · rw [if_neg hcond, if_neg (by omega)]

theorem evalAll_padCons (σ : String → Int) (pad isv : List SVal) (k : Nat) :
    evalAll σ (padCons pad isv k) ↔
      ∀ i < k, evalAll σ (padConsAt pad isv i) := by
  constructor
  · intro hall i hi x hx
    exact hall x (by
      simp only [padCons, List.mem_flatten, List.mem_map]
      exact ⟨padConsAt pad isv i, ⟨i, List.mem_range.mpr hi, rfl⟩, hx⟩)
  · intro hper x hx
    simp only [padCons, List.mem_flatten, List.mem_map] at hx
    obtain ⟨_, ⟨i, hi, rfl⟩, hxin⟩ := hx
    exact hper i (List.mem_range.mp hi) x hxin

theorem evalAll_padConsAt (σ : String → Int) (pad isv : List SVal) (i : Nat) :
    evalAll σ (padConsAt pad isv i) ↔
      (0 ≤ (pad.getD (2 * i) (.c 0)).evalS σ +
        (isv.getD (isv.length - 1 - i) (.c 0)).evalS σ ∧
       0 ≤ (pad.getD (2 * i + 1) (.c 0)).evalS σ +
        (isv.getD (isv.length - 1 - i) (.c 0)).evalS σ ∧
       (pad.getD (2 * i) (.c 0)).evalS σ <
        (isv.getD (isv.length - 1 - i) (.c 0)).evalS σ ∧
       (pad.getD (2 * i + 1) (.c 0)).evalS σ <
        (isv.getD (isv.length - 1 - i) (.c 0)).evalS σ) := by
  simp [padConsAt, evalAll, evalSB_nnsmith_ge, evalSB_nnsmith_lt,
    evalS_nnsmith_add, evalS_c]

/-- The per-entry pad admissibility the claim C6 describes (modelled
from the *claim's* wording, for comparison): `pad + dim ≥ 0` and
`|pad| < dim` for both entries of every padded axis. -/
def padClaimedOk (pad isv : List Int) : Bool :=
  (List.range (pad.length / 2)).all (fun i =>
    let d := isv.getD (isv.length - 1 - i) 0
    decide (0 ≤ pad.getD (2 * i) 0 + d) && decide (0 ≤ pad.getD (2 * i + 1) 0 + d) &&
    decide (|pad.getD (2 * i) 0| < d) && decide (|pad.getD (2 * i + 1) 0| < d))

/-- C6 counterexample: at `pad = [-3, 0]`, input shape `[3]` (constant
mode), every constraint `Pad._requires` emits is concretely true — the
code accepts erasing the whole axis with `pad = -dim` — while the
claim's `|pad| < dim` set rejects it. -/
theorem C6_counterexample :
    Pad.requires ⟨[.c (-3), .c 0], true⟩ ⟨[.c 3], .float32⟩ =
      .ok [.cb true, .cb true, .cb true, .cb true] ∧
    padClaimedOk [-3, 0] [3] = false := by
  constructor
  · rfl
  · rfl

/-- C6 (amended): for `2·k` pad values over a rank-`≥ k` input (constant
mode), `Pad.requires` emits per padded axis `j` (counted from the
right) exactly `pad[2i] + dim_j ≥ 0`, `pad[2i+1] + dim_j ≥ 0`,
`pad[2i] < dim_j` and `pad[2i+1] < dim_j` — a one-sided strict upper
bound, not `|pad| < dim_j` — and `Pad.shape_fn` returns the input shape
with each padded axis enlarged by `pad[2i] + pad[2i+1]`. -/
theorem C6_pad_spec (pad dims : List SVal) (dt : DType)
    (heven : pad.length % 2 = 0) (hk : pad.length / 2 ≤ dims.length) :
    (Pad.requires ⟨pad, true⟩ ⟨dims, dt⟩ = .ok (padCons pad dims (pad.length / 2))) ∧
    (∀ σ : String → Int,
      evalAll σ (padCons pad dims (pad.length / 2)) ↔
        ∀ i < pad.length / 2,
          (0 ≤ (pad.getD (2 * i) (.c 0)).evalS σ +
            (dims.getD (dims.length - 1 - i) (.c 0)).evalS σ ∧
           0 ≤ (pad.getD (2 * i + 1) (.c 0)).evalS σ +
            (dims.getD (dims.length - 1 - i) (.c 0)).evalS σ ∧
           (pad.getD (2 * i) (.c 0)).evalS σ <
            (dims.getD (dims.length - 1 - i) (.c 0)).evalS σ ∧
           (pad.getD (2 * i + 1) (.c 0)).evalS σ <
            (dims.getD (dims.length - 1 - i) (.c 0)).evalS σ)) ∧
    (∃ out, Pad.shape_fn ⟨pad, true⟩ ⟨dims, dt⟩ = .ok [⟨out, dt⟩] ∧
      out.length = dims.length ∧
      ∀ σ : String → Int, ∀ j < dims.length,
        (out.getD j (.c 0)).evalS σ =
          if dims.length - pad.length / 2 ≤ j then
            (dims.getD j (.c 0)).evalS σ +
            (pad.getD (2 * (dims.length - 1 - j)) (.c 0)).evalS σ +
            (pad.getD (2 * (dims.length - 1 - j) + 1) (.c 0)).evalS σ
          else (dims.getD j (.c 0)).evalS σ) := by
  refine ⟨?_, ?_, ?_⟩
  · simp [Pad.requires, heven, Nat.not_lt.mpr hk]
  · intro σ
    rw [evalAll_padCons]
    exact forall₂_congr (fun i _ => evalAll_padConsAt σ pad dims i)
  · refine ⟨padShapeGo pad dims dims (pad.length / 2), ?_, ?_, ?_⟩
    · simp [Pad.shape_fn, heven, Nat.not_lt.mpr hk]
    · exact padShapeGo_length pad dims dims _
    · intro σ j hj
      rw [padShapeGo_getD pad dims (pad.length / 2) hk j hj]
      by_cases hcond : dims.length - pad.length / 2 ≤ j
      · rw [if_pos hcond, if_pos hcond, evalS_nnsmith_add, evalS_nnsmith_add]
      · rw [if_neg hcond, if_neg hcond]

/-- Witness for `C6_pad_spec` at symbolic `pad = [p0, p1]` over the
rank-1 input `[5]`. -/
theorem C6_pad_spec_witness :
    ([SVal.e (.var "p0"), SVal.e (.var "p1")].length % 2 = 0) ∧
    ([SVal.e (.var "p0"), SVal.e (.var "p1")].length / 2 ≤ [SVal.c 5].length) ∧
    Pad.requires ⟨[.e (.var "p0"), .e (.var "p1")], true⟩ ⟨[.c 5], .float32⟩ =
      .ok (padCons [.e (.var "p0"), .e (.var "p1")] [.c 5]
        ([SVal.e (.var "p0"), SVal.e (.var "p1")].length / 2)) :=
  ⟨by decide, by decide,
    (C6_pad_spec [.e (.var "p0"), .e (.var "p1")] [.c 5] .float32
      (by decide) (by decide)).1⟩

/-! ## C10: fully concrete broadcasting -/

/-- Integer-level 1-padding (the concrete shadow of `_prepend_to`). -/
def prependI (x : List Int) (m : Nat) : List Int :=
  List.replicate (m - x.length) 1 ++ x

def maxDim (shapes : List (List Int)) : Nat :=
  (shapes.map List.length).foldl max 0

/-- The 1-padded dims of every shape at (left-indexed) axis `p`. -/
def axisArgs (shapes : List (List Int)) (m p : Nat) : List Int :=
  shapes.map (fun x => (prependI x m).getD p 1)

def axisMaxI (shapes : List (List Int)) (m p : Nat) : Int :=
  concreteMax (axisArgs shapes m p)

/-- The `valid` computation of the concrete branch of `broadcast_cons`:
every padded dim equals the axis max or 1. -/
def axisValid (shapes : List (List Int)) (m p : Nat) : Bool :=
  (axisArgs shapes m p).all (fun v => decide (v = axisMaxI shapes m p ∨ v = 1))

/-- Concrete broadcast compatibility: every axis is valid. -/
def concreteBcastCompat (shapes : List (List Int)) : Bool :=
  (List.range (maxDim shapes)).all (fun p => axisValid shapes (maxDim shapes) p)

/-- The `valid` computation of the concrete branch of
`broadcast_cons_binary` at axis `p`. -/
def pairValid (lhs rhs : List Int) (m p : Nat) : Bool :=
  decide ((prependI lhs m).getD p 1 = 1 ∨ (prependI rhs m).getD p 1 = 1 ∨
    (prependI lhs m).getD p 1 = (prependI rhs m).getD p 1)

theorem getD_map_c (l : List Int) (p : Nat) (d : Int) :
    (l.map SVal.c).getD p (SVal.c d) = .c (l.getD p d) := by
  induction l generalizing p with
  | nil => cases p <;> rfl
  | cons hd tl ih =>
    cases p with
    | zero => rfl
    | succ q => exact ih q

theorem B_prepend_to_map_c (s : List Int) (m : Nat) :
    B_prepend_to (s.map SVal.c) m = (prependI s m).map SVal.c := by
  simp [B_prepend_to, prependI, List.map_append, List.map_replicate,
    List.length_map]

theorem map_toIntC_map_c (l : List Int) : (l.map SVal.c).map SVal.toIntC = l := by
  induction l with
  | nil => rfl
  | cons hd tl ih => simp only [List.map_cons, ih, SVal.toIntC]

theorem all_map_c (l : List Int) (p : SVal → Bool) :
    (l.map SVal.c).all p = l.all (fun v => p (SVal.c v)) := by
  induction l with
  | nil => rfl
  | cons hd tl ih => simp only [List.map_cons, List.all_cons, ih]

theorem bcastAxis_concrete (args : List Int) :
    bcastAxis (args.map SVal.c) = .c (concreteMax args) := by
  have hany : (args.map SVal.c).any SVal.isSym = false := by
    simp [List.any_map, SVal.isSym, Function.comp]
  unfold bcastAxis
  rw [hany, map_toIntC_map_c]
  rfl

/-- Unfolding of `broadcast_shapes` on at least two shapes. -/
theorem broadcast_shapes_cons2 (x y : List SVal) (l : List (List SVal)) :
    broadcast_shapes (x :: y :: l) =
      .ok ((List.range (((x :: y :: l).map List.length).foldl max 0)).map (fun p =>
        bcastAxis ((x :: y :: l).map (fun s =>
          (B_prepend_to s (((x :: y :: l).map List.length).foldl max 0)).getD
            p (.c 1))))) := rfl

theorem maxDim_map_c (shapes : List (List Int)) :
    ((shapes.map (fun s => s.map SVal.c)).map List.length).foldl max 0 =
      maxDim shapes := by
  rw [List.map_map]
  have : (List.length ∘ fun s : List Int => s.map SVal.c) = List.length := by
    funext s
    simp [Function.comp]
  rw [this, maxDim]

theorem axisArgs_map_c (shapes : List (List Int)) (m p : Nat) :
    (shapes.map (fun s => s.map SVal.c)).map
        (fun x => (B_prepend_to x m).getD p (.c 1)) =
      (axisArgs shapes m p).map SVal.c := by
  simp only [axisArgs, List.map_map]
  apply List.map_congr_left
  intro s _
  simp [Function.comp, B_prepend_to_map_c, getD_map_c]

theorem broadcast_shapes_concrete (s1 s2 : List Int) (rest : List (List Int)) :
    broadcast_shapes ((s1 :: s2 :: rest).map (fun s => s.map SVal.c)) =
      .ok ((List.range (maxDim (s1 :: s2 :: rest))).map (fun p =>
        .c (axisMaxI (s1 :: s2 :: rest) (maxDim (s1 :: s2 :: rest)) p))) := by
  have hexp : (s1 :: s2 :: rest).map (fun s => s.map SVal.c) =
      (s1.map SVal.c) :: (s2.map SVal.c) :: rest.map (fun s => s.map SVal.c) := rfl
  rw [hexp, broadcast_shapes_cons2, ← hexp, maxDim_map_c]
  congr 1
  apply List.map_congr_left
  intro p _
  rw [axisArgs_map_c, bcastAxis_concrete]
  rfl

/-- The per-axis entry of the target shape list is the concrete axis
max. -/
theorem tgt_getD_concrete (shapes : List (List Int)) (m : Nat) (pos : Nat)
    (hpos : pos < m) :
    ((List.range m).map (fun p => SVal.c (axisMaxI shapes m p))).getD
      pos (.c 0) = .c (axisMaxI shapes m pos) := by
  show (((List.range m).map (fun p => SVal.c (axisMaxI shapes m p))).get?
    pos).getD (SVal.c 0) = _
  rw [List.get?_eq_getElem?, List.getElem?_map, List.getElem?_range hpos]
  rfl

theorem broadcast_cons_axis_concrete (shapes : List (List Int)) (j : Nat)
    (hj : j < maxDim shapes) :
    broadcast_cons_axis (shapes.map (fun s => s.map SVal.c))
      ((List.range (maxDim shapes)).map (fun p =>
        .c (axisMaxI shapes (maxDim shapes) p))) j =
      .sb (.boolB (axisValid shapes (maxDim shapes) (maxDim shapes - 1 - j))) := by
  simp only [broadcast_cons_axis]
  have hlen : ((List.range (maxDim shapes)).map (fun p =>
      SVal.c (axisMaxI shapes (maxDim shapes) p))).length = maxDim shapes := by
    simp
  rw [hlen, tgt_getD_concrete _ _ _ (by omega), axisArgs_map_c]
  have hall : ((axisArgs shapes (maxDim shapes) (maxDim shapes - 1 - j)).map SVal.c).all
      (fun s => match s with
        | SVal.c v => decide (v = axisMaxI shapes (maxDim shapes)
            (maxDim shapes - 1 - j) ∨ v = 1)
        | SVal.e _ => false) =
      axisValid shapes (maxDim shapes) (maxDim shapes - 1 - j) := by
    rw [all_map_c]
    rfl
  exact congrArg (fun b => SBool.sb (.boolB b)) hall

theorem broadcast_cons_of_ok (ss : List (List SVal)) (tgt : List SVal)
    (h : broadcast_shapes ss = .ok tgt) :
    broadcast_cons ss =
      .ok ((List.range tgt.length).map (broadcast_cons_axis ss tgt)) := by
  unfold broadcast_cons
  rw [h]

theorem broadcast_cons_binary_of_ok (lhs rhs : List SVal) (tgt : List SVal)
    (h : broadcast_shapes [lhs, rhs] = .ok tgt) :
    broadcast_cons_binary lhs rhs =
      .ok ((List.range tgt.length).map (broadcast_cons_binary_axis
        (B_prepend_to lhs tgt.length) (B_prepend_to rhs tgt.length) tgt)) := by
  unfold broadcast_cons_binary
  rw [h]

theorem broadcast_cons_concrete (s1 s2 : List Int) (rest : List (List Int)) :
    broadcast_cons ((s1 :: s2 :: rest).map (fun s => s.map SVal.c)) =
      .ok ((List.range (maxDim (s1 :: s2 :: rest))).map (fun j =>
        .sb (.boolB (axisValid (s1 :: s2 :: rest) (maxDim (s1 :: s2 :: rest))
          (maxDim (s1 :: s2 :: rest) - 1 - j))))) := by
  rw [broadcast_cons_of_ok _ _ (broadcast_shapes_concrete s1 s2 rest)]
  have hlen : ((List.range (maxDim (s1 :: s2 :: rest))).map (fun p =>
      SVal.c (axisMaxI (s1 :: s2 :: rest) (maxDim (s1 :: s2 :: rest)) p))).length =
      maxDim (s1 :: s2 :: rest) := by
    simp
  rw [hlen]
  congr 1
  apply List.map_congr_left
  intro j hj
  exact broadcast_cons_axis_concrete (s1 :: s2 :: rest) j (List.mem_range.mp hj)

theorem broadcast_cons_binary_concrete (lhs rhs : List Int) :
    broadcast_cons_binary (lhs.map SVal.c) (rhs.map SVal.c) =
      .ok ((List.range (maxDim [lhs, rhs])).map (fun j =>
        .sb (.boolB (pairValid lhs rhs (maxDim [lhs, rhs])
          (maxDim [lhs, rhs] - 1 - j))))) := by
  have hbs : broadcast_shapes [lhs.map SVal.c, rhs.map SVal.c] =
      .ok ((List.range (maxDim [lhs, rhs])).map (fun p =>
        .c (axisMaxI [lhs, rhs] (maxDim [lhs, rhs]) p))) :=
    broadcast_shapes_concrete lhs rhs []
  rw [broadcast_cons_binary_of_ok _ _ _ hbs]
  have hlen : ((List.range (maxDim [lhs, rhs])).map (fun p =>
      SVal.c (axisMaxI [lhs, rhs] (maxDim [lhs, rhs]) p))).length =
      maxDim [lhs, rhs] := by
    simp
  rw [hlen]
  congr 1
  apply List.map_congr_left
  intro j hj
  have hjm : j < maxDim [lhs, rhs] := List.mem_range.mp hj
  simp only [broadcast_cons_binary_axis]
  rw [hlen, tgt_getD_concrete _ _ _ (by omega), B_prepend_to_map_c, B_prepend_to_map_c,
    getD_map_c, getD_map_c]
  rfl

/-- Concrete broadcast compatibility as `broadcast_cons_binary` itself
computes it: per axis `lhs == 1 or rhs == 1 or lhs == rhs`. -/
def concretePairCompat (lhs rhs : List Int) : Bool :=
  (List.range (maxDim [lhs, rhs])).all (pairValid lhs rhs (maxDim [lhs, rhs]))

theorem bad_axis_of_all_false (m : Nat) (f : Nat → Bool)
    (hc : (List.range m).all f = false) :
    ∃ p, p < m ∧ f p = false := by
  have hne : ¬((List.range m).all f = true) := by
    rw [hc]
    simp
  rw [List.all_eq_true] at hne
  push_neg at hne
  obtain ⟨p, hpm, hpv⟩ := hne
  exact ⟨p, List.mem_range.mp hpm, Bool.not_eq_true _ |>.mp hpv⟩

/-- C10 (confirmed, `broadcast_cons` half together with the binary
variant below): with every participating dim concrete and the shapes
not broadcast-compatible, neither helper raises a rejection; each
returns a list of constant z3 booleans with `BoolVal(false)` at every
offending axis, so the invalid broadcast is refused only by the
solver check coming out unsat. -/
theorem C10_broadcast_concrete (s1 s2 lhs rhs : List Int) (rest : List (List Int))
    (hc1 : concreteBcastCompat (s1 :: s2 :: rest) = false)
    (hc2 : concretePairCompat lhs rhs = false) :
    (∃ cs, broadcast_cons ((s1 :: s2 :: rest).map (fun s => s.map SVal.c)) = .ok cs ∧
      (∀ x ∈ cs, ∃ b, x = SBool.sb (.boolB b)) ∧
      SBool.sb (.boolB false) ∈ cs) ∧
    (∃ cs2, broadcast_cons_binary (lhs.map SVal.c) (rhs.map SVal.c) = .ok cs2 ∧
      (∀ x ∈ cs2, ∃ b, x = SBool.sb (.boolB b)) ∧
      SBool.sb (.boolB false) ∈ cs2) := by
  constructor
  · refine ⟨_, broadcast_cons_concrete s1 s2 rest, ?_, ?_⟩
    · intro x hx
      simp only [List.mem_map] at hx
      obtain ⟨j, _, rfl⟩ := hx
      exact ⟨_, rfl⟩
    · obtain ⟨p, hpm, hpv⟩ := bad_axis_of_all_false _ _ hc1
      rw [List.mem_map]
      refine ⟨maxDim (s1 :: s2 :: rest) - 1 - p, List.mem_range.mpr (by omega), ?_⟩
      have heq : maxDim (s1 :: s2 :: rest) - 1 -
          (maxDim (s1 :: s2 :: rest) - 1 - p) = p := by omega
      rw [heq, hpv]
  · refine ⟨_, broadcast_cons_binary_concrete lhs rhs, ?_, ?_⟩
    · intro x hx
      simp only [List.mem_map] at hx
      obtain ⟨j, _, rfl⟩ := hx
      exact ⟨_, rfl⟩
    · obtain ⟨p, hpm, hpv⟩ := bad_axis_of_all_false _ _ hc2
      rw [List.mem_map]
      refine ⟨maxDim [lhs, rhs] - 1 - p, List.mem_range.mpr (by omega), ?_⟩
      have heq : maxDim [lhs, rhs] - 1 - (maxDim [lhs, rhs] - 1 - p) = p := by omega
      rw [heq, hpv]

/-- Witness for `C10_broadcast_concrete` at the incompatible concrete
shapes `[2]` and `[3]`. -/
theorem C10_broadcast_concrete_witness :
    concreteBcastCompat [[2], [3]] = false ∧
    (∃ cs, broadcast_cons ([[(2 : Int)], [3]].map (fun s => s.map SVal.c)) = .ok cs ∧
      (∀ x ∈ cs, ∃ b, x = SBool.sb (.boolB b)) ∧
      SBool.sb (.boolB false) ∈ cs) :=
  ⟨by decide,
    (C10_broadcast_concrete [2] [3] [2] [3] [] (by decide) (by decide)).1⟩

/-! ## C1: atomicity of forward insertion -/

theorem mkInEdges_exists (alive : List (Nat × ShapeVar × Nat)) (succ : Nat)
    (l : List (Nat × Nat)) (h : ∀ x ∈ l, x.2 < alive.length) :
    ∃ es, mkInEdges alive succ l = .ok es := by
  induction l with
  | nil => exact ⟨[], rfl⟩
  | cons hd tl ih =>
    obtain ⟨es, hes⟩ := ih (fun x hx => h x (List.mem_cons_of_mem _ hx))
    have hlt : hd.2 < alive.length := h hd (List.mem_cons_self _ _)
    obtain ⟨⟨pred, svar, oi⟩, ht⟩ : ∃ t, alive.get? hd.2 = some t := by
      rw [List.get?_eq_getElem?]
      exact ⟨_, List.getElem?_eq_getElem hlt⟩
    obtain ⟨in_idx, idx⟩ := hd
    refine ⟨⟨pred, succ, idx, (oi, in_idx)⟩ :: es, ?_⟩
    simp only [mkInEdges, ht, hes]

/-- C1 (confirmed): provided the constraint generators themselves do
not raise (their exception would abort the attempt before any check),
`try_forward_insert_at` commits the tentative constraints to the
solver's assertion set and inserts the new node into the abstract graph
exactly when the check comes out sat; on unsat or unknown it returns
`False` with the assertion set and the graph exactly as before the
call (the check passes the tentative constraints only as assumptions). -/
theorem C1_try_forward_insert_at_spec
    (checker : List SBool → List SBool → CheckRes)
    (st : GenState) (op : AbsOp) (idxs : List Nat)
    (ins : List ShapeVar) (cs0 gz : List SBool) (outs : List ShapeVar)
    (hin : getShapes st.alive_shapes idxs = .ok ins)
    (hreq : op.requires ins = .ok cs0)
    (hsf : op.shape_fn ins = .ok outs)
    (hgz : gtZeroAll outs = .ok gz)
    (hranks : checkOutRanks op.out_ranks outs = .ok ())
    (hidx : ∀ i ∈ idxs, i < st.alive_shapes.length) :
    (checker st.assertions (cs0 ++ gz ++
        [nnsmith_le (nnsmith_add st.n_floats (op.n_floats ins)) (.c st.limit_float)])
          ≠ .sat →
      try_forward_insert_at checker st op idxs = .ok (false, st)) ∧
    (checker st.assertions (cs0 ++ gz ++
        [nnsmith_le (nnsmith_add st.n_floats (op.n_floats ins)) (.c st.limit_float)])
          = .sat →
      ∃ st2, try_forward_insert_at checker st op idxs = .ok (true, st2) ∧
        st2.assertions = st.assertions ++ (cs0 ++ gz) ∧
        st2.nodes = st.nodes ++ [⟨st.next_node_id, idxs.length, outs.length,
          (List.range outs.length).map (fun i => st.alive_shapes.length + i), idxs⟩] ∧
        st2.alive_shapes = st.alive_shapes ++
          (outs.enum).map (fun si => (st.next_node_id, si.2, si.1)) ∧
        (∃ es, st2.edges = st.edges ++ es) ∧
        st2.next_node_id = st.next_node_id + 1 ∧
        st2.n_floats = nnsmith_add st.n_floats (op.n_floats ins) ∧
        st2.limit_float = st.limit_float) := by
  have hx2 : ∀ x : Nat × Nat, x ∈ idxs.enum → x.2 ∈ idxs := by
    intro x hx
    obtain ⟨i, v⟩ := x
    obtain ⟨hlt, hv⟩ := List.mem_enum hx
    rw [hv]
    exact List.getElem_mem hlt
  obtain ⟨es, hes⟩ := mkInEdges_exists st.alive_shapes st.next_node_id idxs.enum
    (fun x hx => hidx x.2 (hx2 x hx))
  constructor
  · intro hne
    simp only [try_forward_insert_at, hin, hreq, hsf, hgz]
    rw [if_pos hne]
  · intro hs
    simp only [try_forward_insert_at, hin, hreq, hsf, hgz]
    rw [if_neg (fun hcontra => hcontra hs)]
    simp only [forward_insert_node, hranks, hes]
    exact ⟨_, rfl, rfl, rfl, rfl, ⟨es, rfl⟩, rfl, rfl, rfl⟩

/-- A one-node generator state for exercising forward insertion. -/
def C1wSt : GenState :=
  ⟨[], .c 1, 100, [(0, ⟨[.c 1], .float32⟩, 0)], [⟨0, 0, 1, [0], []⟩], [], 1⟩

/-- A trivial abstract operator (no extra constraints, one rank-1
output of declared rank "any"). -/
def C1wOp : AbsOp :=
  ⟨fun _ => .ok [], fun _ => .ok [⟨[.c 1], .float32⟩], fun _ => .c 1, [-1]⟩

/-- Witness for `C1_try_forward_insert_at_spec`: with a sat-oracle the
insertion succeeds and commits. -/
theorem C1_try_forward_insert_at_spec_witness :
    ∃ st2, try_forward_insert_at (fun _ _ => CheckRes.sat) C1wSt C1wOp [0] =
        .ok (true, st2) ∧
      st2.assertions = C1wSt.assertions ++ ([] ++ []) ∧
      st2.next_node_id = C1wSt.next_node_id + 1 := by
  obtain ⟨st2, h1, h2, _, _, _, h6, _⟩ :=
    (C1_try_forward_insert_at_spec (fun _ _ => CheckRes.sat) C1wSt C1wOp [0]
      [⟨[.c 1], .float32⟩] [] [] [⟨[.c 1], .float32⟩]
      rfl rfl rfl rfl rfl (by decide)).2 rfl
  exact ⟨st2, h1, h2, h6⟩

/-! ## C8: finalization totality -/

theorem mem_setOp (g : List (Nat × NodeOp)) (p : Nat) (op : NodeOp)
    (x : Nat × NodeOp) :
    x ∈ setOp g p op ↔ ∃ y ∈ g, x = (if y.1 = p then (y.1, op) else y) := by
  simp [setOp, List.mem_map, eq_comm]

theorem finalizeRest_mem (coins : Nat → Bool) :
    ∀ (ps : List Nat) (g : List (Nat × NodeOp)) (i : Nat),
      ∀ x ∈ finalizeRest coins g ps i,
        (x.1 ∉ ps ∧ x ∈ g) ∨
        (x.1 ∈ ps ∧ (x.2 = .inputOp ∨ x.2 = .constantOp)) := by
  intro ps
  induction ps with
  | nil =>
    intro g i x hx
    exact .inl ⟨by simp, hx⟩
  | cons p ps2 ih =>
    intro g i x hx
    rcases ih (setOp g p (if coins i then .constantOp else .inputOp)) (i + 1) x hx
      with ⟨hnp, hxg⟩ | ⟨hp, hok⟩
    · rw [mem_setOp] at hxg
      obtain ⟨y, hy, hxy⟩ := hxg
      by_cases hyp : y.1 = p
      · rw [if_pos hyp] at hxy
        refine .inr ⟨?_, ?_⟩
        · rw [hxy]
          simp [hyp]
        · rw [hxy]
          by_cases hc : coins i <;> simp [hc]
      · rw [if_neg hyp] at hxy
        subst hxy
        exact .inl ⟨by simp [hyp, hnp], hy⟩
    · exact .inr ⟨List.mem_cons_of_mem _ hp, hok⟩

/-- C8 (confirmed; `Placeholder.to_input` / `to_const` are modelled
from the spec, being absent from the op.py snapshot): after the
finalization block of `abstract_gen`, no node carries a Placeholder
operator; the first recorded placeholder always becomes an Input, and
every further one becomes an Input or a Constant according to its coin
flip. -/
theorem C8_finalize_placeholders_spec (g : List (Nat × NodeOp)) (p0 : Nat)
    (rest : List Nat) (coins : Nat → Bool)
    (hnd : p0 ∉ rest)
    (hph : ∀ x ∈ g, (x.2 = NodeOp.placeholder ↔ x.1 ∈ p0 :: rest)) :
    ∃ g2, finalize_placeholders g (p0 :: rest) coins = .ok g2 ∧
      (∀ x ∈ g2, x.2 ≠ NodeOp.placeholder) ∧
      (∀ x ∈ g2, x.1 = p0 → x.2 = NodeOp.inputOp) ∧
      (∀ x ∈ g2, x.1 ∈ rest → x.2 = NodeOp.inputOp ∨ x.2 = NodeOp.constantOp) := by
  refine ⟨finalizeRest coins (setOp g p0 .inputOp) rest 0, rfl, ?_, ?_, ?_⟩
  · intro x hx
    rcases finalizeRest_mem coins rest (setOp g p0 .inputOp) 0 x hx
      with ⟨hnp, hxg⟩ | ⟨_, hok⟩
    · rw [mem_setOp] at hxg
      obtain ⟨y, hy, hxy⟩ := hxg
      by_cases hyp : y.1 = p0
      · rw [if_pos hyp] at hxy
        rw [hxy]
        simp
      · rw [if_neg hyp] at hxy
        subst hxy
        intro hxph
        have := (hph x hy).mp hxph
        rcases List.mem_cons.mp this with h1 | h1
        · exact hyp h1
        · exact hnp h1
    · rcases hok with h | h <;> rw [h] <;> simp
  · intro x hx hxp0
    rcases finalizeRest_mem coins rest (setOp g p0 .inputOp) 0 x hx
      with ⟨hnp, hxg⟩ | ⟨hp, _⟩
    · rw [mem_setOp] at hxg
      obtain ⟨y, hy, hxy⟩ := hxg
      by_cases hyp : y.1 = p0
      · rw [if_pos hyp] at hxy
        rw [hxy]
      · rw [if_neg hyp] at hxy
        subst hxy
        exact absurd hxp0 hyp
    · exact absurd (hxp0 ▸ hp) hnd
  · intro x hx hxrest
    rcases finalizeRest_mem coins rest (setOp g p0 .inputOp) 0 x hx
      with ⟨hnp, _⟩ | ⟨_, hok⟩
    · exact absurd hxrest hnp
    · exact hok

/-- Witness for `C8_finalize_placeholders_spec`: a three-node graph
with placeholders 0 and 2. -/
theorem C8_finalize_placeholders_spec_witness :
    ∃ g2, finalize_placeholders
        [(0, NodeOp.placeholder), (1, NodeOp.otherOp), (2, NodeOp.placeholder)]
        [0, 2] (fun _ => true) = .ok g2 ∧
      (∀ x ∈ g2, x.2 ≠ NodeOp.placeholder) ∧
      (∀ x ∈ g2, x.1 = 0 → x.2 = NodeOp.inputOp) ∧
      (∀ x ∈ g2, x.1 ∈ [2] → x.2 = NodeOp.inputOp ∨ x.2 = NodeOp.constantOp) :=
  C8_finalize_placeholders_spec
    [(0, .placeholder), (1, .otherOp), (2, .placeholder)] 0 [2] (fun _ => true)
    (by decide) (by decide)

end NNSmith
